import Mathlib

/-!
Verification development for the `restperf` performance collector
(`cmd/collectors/restperf/restperf.go`).

The Go code is shallowly embedded: Go maps become association lists over
`String` keys, `float64` counter values become `Rat` (the arithmetic claims
are about exact quotients of deltas), fallible paths return `Option` or an
error-discriminating sum.  The matrix arithmetic primitives (`Delta`,
`Divide`, `DivideWithThreshold`, `MultiplyByScalar`) live in `pkg/matrix`,
which is not part of this source tree; those definitions are modelled from
the specification (section 4.A) and are marked as such.  Everything else is
translated from `restperf.go`.
-/

namespace Harvest

/-- Association-list lookup, mirroring a Go map read (`v, ok := m[k]`). -/
def lookupA {α : Type} : List (String × α) → String → Option α
  | [], _ => none
  | (k, v) :: rest, key => if k = key then some v else lookupA rest key

/-- Remove every binding of `k`, mirroring Go `delete(m, k)` (map keys are unique). -/
def eraseA {α : Type} (l : List (String × α)) (k : String) : List (String × α) :=
  l.filter (fun p => p.1 ≠ k)

/-- Go map write `m[k] = v`: as a key-value mapping this is "bind `k` to `v`,
keep all other bindings". -/
def insertA {α : Type} (l : List (String × α)) (k : String) (v : α) : List (String × α) :=
  (k, v) :: eraseA l k

/-- Keys of an association list. -/
def keysA {α : Type} (l : List (String × α)) : List String :=
  l.map Prod.fst

/-! ## Error handling (claim C4)

`restperf.go` routes transport errors through `handleError` in `PollCounter`
(line 276) and `PollInstance` (line 1448).  `PollData` wraps its fetch error
directly with `fmt.Errorf` (lines 727-730), without consulting the error kind. -/

/-- Transport error kinds surfaced by the REST client (`errs.TableNotFound`,
`errs.APINotFound`, and everything else). -/
inductive RestErrKind where
  | tableNotFound
  | apiNotFound
  | other
deriving DecidableEq, Repr

/-- Classification of the error a poll phase returns to the scheduler:
either the `ErrAPIRequestRejected` wrap (task goes to stand-by) or a
pass-through wrap (`fmt.Errorf(... %w ...)`). -/
inductive PollErr where
  | apiRequestRejected (kind : RestErrKind)
  | passThrough (kind : RestErrKind)
deriving DecidableEq, Repr

/-- `errs.IsRestErr(err, kind)` on the modelled error kinds. -/
def isRestErr (e kind : RestErrKind) : Bool := e == kind

/-- `(*RestPerf).handleError`, lines 1574-1580: `TableNotFound`/`APINotFound`
become `ErrAPIRequestRejected`, everything else is passed through. -/
def handleError (e : RestErrKind) : PollErr :=
  if isRestErr e .tableNotFound || isRestErr e .apiNotFound then
    .apiRequestRejected e
  else
    .passThrough e

/-- Fetch-error path of `PollCounter` (line 276-278): delegates to `handleError`. -/
def pollCounterOnFetchError (e : RestErrKind) : PollErr := handleError e

/-- Fetch-error path of `PollInstance` (line 1448-1450): delegates to `handleError`. -/
def pollInstanceOnFetchError (e : RestErrKind) : PollErr := handleError e

/-- Fetch-error path of `PollData` (lines 727-730): every error from
`FetchRestPerfData` is wrapped with `fmt.Errorf` and returned as-is, with no
error-kind dispatch. -/
def pollDataOnFetchError (e : RestErrKind) : PollErr := .passThrough e

/-! ## Workload-detail instance-key parsing (claim C7)

`pollData`, lines 846-859: strip everything up to and including the first
`':'`, then `strings.Cut` on `"."` (which splits at the FIRST dot); records
without a dot are skipped. -/

/-- `strings.Cut(s, sep)` on character lists for a single-character separator:
split at the first occurrence, `none` when absent. -/
def cutChars (sep : Char) : List Char → Option (List Char × List Char)
  | [] => none
  | c :: rest =>
    if c = sep then some ([], rest)
    else
      match cutChars sep rest with
      | some (b, a) => some (c :: b, a)
      | none => none

/-- `strings.Cut` on strings (single-character separator). -/
def cutS (s : String) (sep : Char) : Option (String × String) :=
  (cutChars sep s.data).map (fun p => (String.mk p.1, String.mk p.2))

/-- The workload-detail instance-key transformation of `pollData`
(lines 848-859): `instanceKey = instanceKey[strings.Index(instanceKey, ":")+1:]`
(the whole key when there is no colon), then `strings.Cut(instanceKey, ".")`;
`none` models the `return true` skip when no dot is found. -/
def workloadInstanceKeyLayer (instanceKey : String) : Option (String × String) :=
  cutS
    (match cutS instanceKey ':' with
     | some p => p.2
     | none => instanceKey)
    '.'

/-- The claim's reading of the same transformation: split off the FINAL
`.<resource>` suffix (split at the last dot).  Stated from the spec's words,
for comparison with `workloadInstanceKeyLayer`. -/
def workloadInstanceKeyLayerLastDot (instanceKey : String) : Option (String × String) :=
  match cutChars '.'
      (match cutS instanceKey ':' with
       | some p => p.2
       | none => instanceKey).data.reverse with
  | some (b, a) => some (String.mk a.reverse, String.mk b.reverse)
  | none => none

/-! ## InitQOS refine handling (claims C6, C10)

`InitQOS`, lines 168-180: when the template has a `counters.refine` block,
`with_constituents == "false"` sets `disableConstituents`, and
`with_service_latency != "false"` appends `"service_time_latency"` to the
package-global slice `workloadDetailMetrics` (initialised to
`["resource_latency"]` at line 54).  Nothing ever appends
`"wait_time_latency"`. -/

/-- Initial value of the package-global `workloadDetailMetrics` (line 54). -/
def workloadDetailMetricsInit : List String := ["resource_latency"]

/-- The `counters.refine` portion of `InitQOS` (lines 168-180).  `refine` is
`none` when the template has no `counters` child or no `refine` child;
otherwise it carries the contents of `with_constituents` and
`with_service_latency` (`""` when the child is absent, as
`GetChildContentS` returns).  Returns the updated
`(disableConstituents, workloadDetailMetrics)` pair. -/
def initQOSRefine (refine : Option (String × String)) (disableConstituents : Bool)
    (wdm : List String) : Bool × List String :=
  match refine with
  | none => (disableConstituents, wdm)
  | some (withConstituents, withServiceLatency) =>
    (if withConstituents = "false" then true else disableConstituents,
     if withServiceLatency ≠ "false" then wdm ++ ["service_time_latency"] else wdm)

/-! ## Matrix model (claims C1, C2, C9)

A matrix holds an ordered instance-key list and the metrics keyed by metric
key.  A metric's per-instance values are an association list from instance
key to `Rat`; a missing binding models an unset or invalidated value
(`record[i] == false`).  The arithmetic primitives live in `pkg/matrix`,
which is not part of this source tree: `Delta`, `Divide`,
`DivideWithThreshold` and `MultiplyByScalar` below are modelled from the
spec, section 4.A.  The post-processing pipeline (`ppStep1`, `ppStep2`,
`postProcess`, `pollDataFinish`) is translated from `pollData`,
restperf.go lines 1099-1286. -/

/-- Entry of `perfProp.counterInfo` (restperf.go lines 71-77). -/
structure Counter where
  name : String
  description : String
  counterType : String
  unit : String
  denominator : String
deriving DecidableEq, Repr

/-- A matrix metric: identity/display fields, the flags used by the
post-processor, and the per-instance values (a missing binding is an
unset/invalidated value). -/
structure MetricM where
  name : String
  label : String
  exportable : Bool
  isArray : Bool
  buckets : Option (List String)
  property : String
  comment : String
  labels : List (String × String)
  values : List (String × Rat)
deriving DecidableEq, Repr

/-- The matrix: ordered instance keys plus metrics keyed by metric key. -/
structure MatrixM where
  instances : List String
  metrics : List (String × MetricM)
deriving DecidableEq, Repr

/-- Value of metric `key` at instance `i`; `none` when the metric is absent
or the value is unset/invalid. -/
def getVal (m : MatrixM) (key i : String) : Option Rat :=
  match lookupA m.metrics key with
  | some mm => lookupA mm.values i
  | none => none

/-- Replace the values of metric `key` by the results of the per-instance
function `f` over the matrix's instance list (`f i = none` leaves the
instance invalid).  No-op when the metric is absent (the Go primitives
return an error there). -/
def updateValues (m : MatrixM) (key : String) (f : String → Option Rat) : MatrixM :=
  match lookupA m.metrics key with
  | none => m
  | some mm =>
    { m with
      metrics := insertA m.metrics key
        { mm with
          values := m.instances.filterMap (fun i => (f i).map (fun v => (i, v))) } }

/-- The instances an arithmetic primitive drops (counted as skips). -/
def skipsOf (m : MatrixM) (key : String) (f : String → Option Rat) : List String :=
  match lookupA m.metrics key with
  | none => []
  | some _ => m.instances.filter (fun i => (f i).isNone)

/-- Per-instance delta: current minus previous raw value; invalid when
either side is invalid or the difference is negative. -/
def deltaFn (m prev : MatrixM) (key : String) (i : String) : Option Rat :=
  match getVal m key i, getVal prev key i with
  | some c, some p => if c - p < 0 then none else some (c - p)
  | _, _ => none

/-- Modelled from the spec (missing `pkg/matrix` source), section 4.A:
`Delta(key, prev)`: `new[i] = cur[i] - prev[i]`; either side invalid
invalidates the result, negative deltas are treated as invalid, and dropped
instances are returned as skips. -/
def Delta (key : String) (prev m : MatrixM) : MatrixM × List String :=
  (updateValues m key (deltaFn m prev key), skipsOf m key (deltaFn m prev key))

/-- Per-instance division: numerator over denominator; invalid (a skip)
when either side is invalid or the denominator is not positive. -/
def divideFn (m : MatrixM) (key den : String) (i : String) : Option Rat :=
  match getVal m key i, getVal m den i with
  | some n, some d => if 0 < d then some (n / d) else none
  | _, _ => none

/-- Modelled from the spec (missing `pkg/matrix` source), section 4.A:
`Divide(key, denomKey)`: `new[i] = num[i] / denom[i]`, `denom <= 0` or
insufficient data drops the instance as a skip. -/
def Divide (key den : String) (m : MatrixM) : MatrixM × List String :=
  (updateValues m key (divideFn m key den), skipsOf m key (divideFn m key den))

/-- Per-instance latency-safe division: skip when the denominator delta is
below the `minOps` threshold. -/
def divideWithThresholdFn (m : MatrixM) (key den : String) (minOps : Rat)
    (i : String) : Option Rat :=
  match getVal m key i, getVal m den i with
  | some n, some d => if minOps ≤ d then some (n / d) else none
  | _, _ => none

/-- Modelled from the spec (missing `pkg/matrix` source), section 4.A:
`DivideWithThreshold(key, denomKey, minOps, cachedCur, prev, tsKey)`; the
cached/previous matrices the source consults to carry a prior cooked value
are kept as parameters for signature fidelity, and the guarded result is
invalidated and counted as a skip. -/
def DivideWithThreshold (key den : String) (minOps : Rat) (cached prev : MatrixM)
    (tsKey : String) (m : MatrixM) : MatrixM × List String :=
  (updateValues m key (divideWithThresholdFn m key den minOps),
   skipsOf m key (divideWithThresholdFn m key den minOps))

/-- Modelled from the spec (missing `pkg/matrix` source), section 4.A:
`MultiplyByScalar(key, k)` scales every valid value; nothing is skipped. -/
def MultiplyByScalar (key : String) (s : Rat) (m : MatrixM) : MatrixM × List String :=
  (updateValues m key (fun i => (getVal m key i).map (fun v => v * s)), [])

/-- `metric.SetProperty(property); metric.SetComment(counter.denominator)`
(restperf.go lines 1161-1163). -/
def setMeta (m : MatrixM) (key prop comm : String) : MatrixM :=
  match lookupA m.metrics key with
  | none => m
  | some mm =>
    { m with metrics := insertA m.metrics key { mm with property := prop, comment := comm } }

/-- `(*RestPerf).counterLookup` (lines 1374-1384): array metrics are looked
up by the key part before the `#` token. -/
def counterLookup (ci : List (String × Counter)) (mm : MetricM) (key : String) :
    Option Counter :=
  if mm.isArray then
    lookupA ci
      (match cutS key '#' with
       | some p => p.1
       | none => key)
  else
    lookupA ci key

/-- The metrics eligible for post-processing (lines 1118-1135): name is not
`timestamp`, no histogram buckets, and the counter info resolves. -/
def ppEligible (ci : List (String × Counter)) (m : MatrixM) : List (String × MetricM) :=
  m.metrics.filter (fun p =>
    p.2.name != "timestamp" && p.2.buckets.isNone && (counterLookup ci p.2 p.1).isSome)

/-- Denominator of an eligible metric's counter. -/
def ppDenomOf (ci : List (String × Counter)) (p : String × MetricM) : String :=
  match counterLookup ci p.2 p.1 with
  | some c => c.denominator
  | none => ""

/-- The processing order (lines 1137-1141): metrics without a base counter
first, then those requiring one. -/
def orderedKeys (ci : List (String × Counter)) (m : MatrixM) : List String :=
  (List.filter (fun p => ppDenomOf ci p == "") (ppEligible ci m)).map Prod.fst ++
    (List.filter (fun p => ppDenomOf ci p != "") (ppEligible ci m)).map Prod.fst

/-- First post-processing pass for one ordered key (lines 1152-1249):
set property/comment, pass raw/string through, compute the delta, defer
rates, and divide averages/percents by their base (thresholded for latency
metrics), multiplying percents by 100.  Skips accumulate as
(metric key, instance) pairs. -/
def ppStep1 (ci : List (String × Counter)) (prev cached : MatrixM) (minOps : Rat)
    (acc : MatrixM × List (String × String)) (key : String) :
    MatrixM × List (String × String) :=
  match lookupA acc.1.metrics key with
  | none => acc
  | some mm =>
    match counterLookup ci mm key with
    | none => acc
    | some c =>
      let m0 := setMeta acc.1 key c.counterType c.denominator
      if c.counterType == "raw" || c.counterType == "string" then (m0, acc.2)
      else
        let d := Delta key prev m0
        let sk1 := acc.2 ++ d.2.map (fun i => (key, i))
        if c.counterType == "delta" then (d.1, sk1)
        else if c.counterType == "rate" then (d.1, sk1)
        else
          match lookupA d.1.metrics c.denominator with
          | none => (d.1, sk1)
          | some _ =>
            if c.counterType == "average" || c.counterType == "percent" then
              let dv :=
                if mm.name.endsWith "latency" then
                  DivideWithThreshold key c.denominator minOps cached prev "timestamp" d.1
                else
                  Divide key c.denominator d.1
              let sk2 := sk1 ++ dv.2.map (fun i => (key, i))
              if c.counterType == "average" then (dv.1, sk2)
              else
                let mu := MultiplyByScalar key 100 dv.1
                (mu.1, sk2 ++ mu.2.map (fun i => (key, i)))
            else (d.1, sk1)

/-- Second post-processing pass for one ordered key (lines 1252-1273):
divide each rate metric's delta by the timestamp delta. -/
def ppStep2 (ci : List (String × Counter)) (acc : MatrixM × List (String × String))
    (key : String) : MatrixM × List (String × String) :=
  match lookupA acc.1.metrics key with
  | none => acc
  | some mm =>
    match counterLookup ci mm key with
    | none => acc
    | some c =>
      if c.counterType == "rate" then
        let dv := Divide key "timestamp" acc.1
        (dv.1, acc.2 ++ dv.2.map (fun i => (key, i)))
      else acc

/-- The post-processing portion of `pollData` (lines 1107-1278): snapshot
the raw data, compute the timestamp delta first (its skips are discarded,
line 1145), run the ordered first pass, then the deferred rate pass. -/
def postProcess (ci : List (String × Counter)) (minOps : Rat) (prev cur : MatrixM) :
    MatrixM × List (String × String) :=
  let cached := cur
  let keys := orderedKeys ci cur
  let m1 := (Delta "timestamp" prev cur).1
  let a1 := keys.foldl (ppStep1 ci prev cached minOps) (m1, [])
  keys.foldl (ppStep2 ci) a1

/-- Collector state relevant to the poll cycle: the `isCacheEmpty` flag and
the stored previous matrix `r.Matrix[r.Object]`. -/
structure PollState where
  isCacheEmpty : Bool
  stored : MatrixM
deriving DecidableEq, Repr

/-- Tail of `pollData` (lines 1099-1286): on the first cycle store the
freshly populated matrix, clear the flag, and emit nothing; afterwards
post-process against the stored previous matrix, store the raw snapshot of
the current matrix, and emit the cooked matrix together with the total skip
count. -/
def pollDataFinish (ci : List (String × Counter)) (minOps : Rat) (st : PollState)
    (cur : MatrixM) : PollState × Option (MatrixM × Nat) :=
  if st.isCacheEmpty then
    ({ isCacheEmpty := false, stored := cur }, none)
  else
    let r := postProcess ci minOps st.stored cur
    ({ isCacheEmpty := false, stored := cur }, some (r.1, r.2.length))

/-- Defaults of a freshly created float metric (`NewMetricFloat64`;
modelled from the spec for the fields the claims read). -/
def newMetricFloat64 (key display : String) : MetricM :=
  { name := key, label := display, exportable := true, isArray := false,
    buckets := none, property := "", comment := "", labels := [], values := [] }

/-- `(*RestPerf).getMetric` (lines 749-767): fetch-or-create the metric in
the current matrix and make sure the previous matrix has the key too. -/
def getMetric (cur prev : MatrixM) (key display : String) : MatrixM × MatrixM :=
  (match lookupA cur.metrics key with
   | some _ => cur
   | none => { cur with metrics := insertA cur.metrics key (newMetricFloat64 key display) },
   match lookupA prev.metrics key with
   | some _ => prev
   | none => { prev with metrics := insertA prev.metrics key (newMetricFloat64 key display) })

/-! ## Workload-detail counter synthesis (claim C6)

`(*RestPerf).processWorkLoadCounter`, restperf.go lines 607-684. -/

/-- A `rest2.Metric` template entry (`Label`, `Name`, `MetricType`,
`Exportable`). -/
structure MetricDef where
  name : String
  label : String
  metricType : String
  exportable : Bool
deriving DecidableEq, Repr

/-- Lines 614-624: make sure every `Prop.Metrics` entry exists in the
matrix (created with the template label when absent) and carry over its
`Exportable` flag. -/
def pwcEnsureMetrics (propMetrics : List (String × MetricDef)) (mat : MatrixM) : MatrixM :=
  propMetrics.foldl
    (fun m p =>
      let mm :=
        match lookupA m.metrics p.1 with
        | some mm => mm
        | none => newMetricFloat64 p.1 p.2.label
      { m with metrics := insertA m.metrics p.1 { mm with exportable := p.2.exportable } })
    mat

/-- Lines 640-651: fetch-or-create the `ops` metric; on creation register
its counter info (`rate`, `per_sec`, no denominator). -/
def pwcOps (mat : MatrixM) (ci : List (String × Counter)) :
    MatrixM × List (String × Counter) :=
  match lookupA mat.metrics "ops" with
  | some _ => (mat, ci)
  | none =>
    ({ mat with metrics := insertA mat.metrics "ops" (newMetricFloat64 "ops" "") },
     insertA ci "ops"
       { name := "ops", description := "", counterType := "rate", unit := "per_sec",
         denominator := "" })

/-- Lines 653-654: `service_time` and `wait_time` are marked not
exportable. -/
def pwcUnexport (mat : MatrixM) : MatrixM :=
  match lookupA mat.metrics "service_time", lookupA mat.metrics "wait_time" with
  | some s, some w =>
    { mat with
      metrics :=
        insertA (insertA mat.metrics "service_time" { s with exportable := false })
          "wait_time" { w with exportable := false } }
  | _, _ => mat

/-- Body of the synthesis loop (lines 661-680) for one resource-map entry
`x` and one workload-detail metric name `wm`: skip when `{tag}{wm}` already
exists; otherwise create it with display label `wm` and a `resource` label,
and register counter info cloned from `service_time`'s type and unit with
denominator `ops`. -/
def pwcSynthInner (sci : Counter) (x : String × String)
    (acc2 : MatrixM × List (String × Counter)) (wm : String) :
    MatrixM × List (String × Counter) :=
  match lookupA acc2.1.metrics (x.1 ++ wm) with
  | some _ => acc2
  | none =>
    ({ acc2.1 with
       metrics := insertA acc2.1.metrics (x.1 ++ wm)
         { newMetricFloat64 (x.1 ++ wm) wm with labels := [("resource", x.2)] } },
     insertA acc2.2 (x.1 ++ wm)
       { name := wm, description := "", counterType := sci.counterType,
         unit := sci.unit, denominator := "ops" })

/-- Lines 660-681: for each `resource_map` entry, run the synthesis body
over every name in `workloadDetailMetrics`. -/
def pwcSynthStep (sci : Counter) (wdm : List String)
    (acc : MatrixM × List (String × Counter)) (x : String × String) :
    MatrixM × List (String × Counter) :=
  wdm.foldl (pwcSynthInner sci x) acc

/-- `(*RestPerf).processWorkLoadCounter` (lines 607-684).  Returns the
updated matrix metrics and counter info, or the fail-stop error.  The Go
code reads `counterInfo[service.GetName()]` inside the loop; a missing
entry would dereference a nil pointer there, which the model rejects
upfront instead. -/
def processWorkLoadCounter (isDetail : Bool) (propMetrics : List (String × MetricDef))
    (resourceMap : Option (List (String × String))) (wdm : List String)
    (mat : MatrixM) (ci : List (String × Counter)) :
    Except String (MatrixM × List (String × Counter)) :=
  if !isDetail then .ok (mat, ci)
  else
    let mat1 := pwcEnsureMetrics propMetrics mat
    if (lookupA mat1.metrics "service_time").isNone
        || (lookupA mat1.metrics "wait_time").isNone then
      .error "workload metrics"
    else
      let oc := pwcOps mat1 ci
      let mat3 := pwcUnexport oc.1
      match resourceMap with
      | none => .error "resource_map"
      | some rmap =>
        match lookupA oc.2 "service_time" with
        | none => .error "counterInfo service_time"
        | some sci => .ok (rmap.foldl (pwcSynthStep sci wdm) (mat3, oc.2))

/-! ## Instance polling (claims C5, C8)

`(*RestPerf).pollInstance`, restperf.go lines 1455-1554. -/

/-- The compiled regular expression `^(.*)__(\d{4})$` (line 45): any prefix
followed by two underscores and exactly four trailing digits. -/
def constituentMatch (s : String) : Bool :=
  match s.data.reverse with
  | d1 :: d2 :: d3 :: d4 :: '_' :: '_' :: _ =>
    d1.isDigit && d2.isDigit && d3.isDigit && d4.isDigit
  | _ => false

/-- The per-object configuration `pollInstance` reads: whether the query is
a workload / workload-detail one, the `disableConstituents` flag, and the
template instance keys. -/
structure InstanceConfig where
  isWorkload : Bool
  isDetail : Bool
  disableConstituents : Bool
  instanceKeys : List String
deriving DecidableEq, Repr

/-- One parsed JSON record of the instance poll: whether it is an object,
its `volume` field, the top-level fields (`instanceData.Get`, used for
workload objects), and its properties (`parseProperties`, used
otherwise). -/
structure IRecord where
  isObject : Bool
  volume : String
  fields : List (String × String)
  props : List (String × String)
deriving DecidableEq, Repr

/-- Lines 1470-1476: workload objects key instances by `uuid`,
workload-detail objects by `name`, everything else by the template keys. -/
def effectiveInstanceKeys (cfg : InstanceConfig) : List String :=
  if cfg.isWorkload then ["uuid"]
  else if cfg.isDetail then ["name"]
  else cfg.instanceKeys

/-- Lines 1506-1510: how one key field is read from a record. -/
def recordGet (cfg : InstanceConfig) (rec : IRecord) (k : String) : Option String :=
  if cfg.isWorkload || cfg.isDetail then lookupA rec.fields k else lookupA rec.props k

/-- Lines 1503-1517: concatenate the key field values in order; a missing
field warns and BREAKS the loop, leaving the accumulated (possibly empty)
key in use. -/
def buildInstanceKey (get : String → Option String) : List String → String → String
  | [], acc => acc
  | k :: rest, acc =>
    match get k with
    | some v => buildInstanceKey get rest (acc ++ v)
    | none => acc

/-- Lines 1487-1517: the instance key a record parses to, or `none` when
the record is skipped (not an object, or a suppressed constituent). -/
def recordKey (cfg : InstanceConfig) (rec : IRecord) : Option String :=
  if !rec.isObject then none
  else if (cfg.isWorkload || cfg.isDetail) && cfg.disableConstituents
      && constituentMatch rec.volume then none
  else some (buildInstanceKey (recordGet cfg rec) (effectiveInstanceKeys cfg) "")

/-- Lines 1519-1528 for one record, on the state
`(oldInstances, matrix instance keys)`: a key found in `old` is removed from
`old` (label refresh); otherwise `NewInstance` adds it unless it already
exists (duplicate error, logged and skipped). -/
def pollInstanceStep (cfg : InstanceConfig) (st : List String × List String)
    (rec : IRecord) : List String × List String :=
  match recordKey cfg rec with
  | none => st
  | some k =>
    if k ∈ st.1 then (st.1.filter (fun x => x ≠ k), st.2)
    else if k ∈ st.2 then st
    else (st.1, st.2 ++ [k])

/-- Lines 1462-1534: snapshot the current keys as `old`, process every
record, then remove every key remaining in `old` from the matrix.  Returns
the final instance-key set of the matrix. -/
def pollInstanceKeys (cfg : InstanceConfig) (records : List IRecord)
    (matKeys : List String) : List String :=
  let final := records.foldl (pollInstanceStep cfg) (matKeys, matKeys)
  final.2.filter (fun k => k ∉ final.1)

/-- The multiset of instance keys parsed from a response. -/
def parsedInstanceKeys (cfg : InstanceConfig) (records : List IRecord) : List String :=
  records.filterMap (recordKey cfg)

/-! ## Counter schema polling (claim C3)

`(*RestPerf).pollCounter`, restperf.go lines 283-415.  The model tracks the
metric-definition state: `Prop.Metrics`, `Prop.InstanceLabels`,
`archivedMetrics` and `perfProp.counterInfo`.  The timestamp-metric creation
and `processWorkLoadCounter` call at the end of `pollCounter` act on the
matrix and are modelled separately. -/

/-- One schema entry of the `counter_schemas` response. -/
structure SchemaCounter where
  name : String
  ctype : String
  denominator : String
  description : String
  unit : String
  isObject : Bool
deriving DecidableEq, Repr

/-- The metric-definition state `pollCounter` reads and writes. -/
structure CounterState where
  propMetrics : List (String × MetricDef)
  instanceLabels : List (String × String)
  archived : List (String × MetricDef)
  counterInfo : List (String × Counter)
deriving DecidableEq, Repr

/-- Does the first character list start the second one? -/
def startsWithChars : List Char → List Char → Bool
  | [], _ => true
  | _ :: _, [] => false
  | p :: ps, s :: ss => p = s && startsWithChars ps ss

/-- Substring search on character lists. -/
def containsSubChars (pat : List Char) : List Char → Bool
  | [] => startsWithChars pat []
  | s :: ss => startsWithChars pat (s :: ss) || containsSubChars pat ss

/-- `strings.Contains(s, pat)`. -/
def containsSub (s pat : String) : Bool := containsSubChars pat.data s.data

/-- The counter type after the template `override` block is applied
(`GetOverride`, lines 600-605: an absent block or child yields `""`, which
leaves the schema type in force). -/
def effType (ov : List (String × String)) (c : SchemaCounter) : String :=
  match lookupA ov c.name with
  | some p => if p = "" then c.ctype else p
  | none => c.ctype

/-- `r.Prop.Metrics[name].Exportable = false` (line 331). -/
def setExportableFalse (l : List (String × MetricDef)) (k : String) :
    List (String × MetricDef) :=
  match lookupA l k with
  | some md => insertA l k { md with exportable := false }
  | none => l

/-- Lines 317-323: a previously archived metric reappearing in the schema
is restored into `Prop.Metrics` (with its stored definition) and deleted
from the archive. -/
def pollCounterRestore (st : CounterState) (c : SchemaCounter) : CounterState :=
  match lookupA st.archived c.name with
  | some am =>
    { st with propMetrics := insertA st.propMetrics c.name am,
              archived := eraseA st.archived c.name }
  | none => st

/-- Lines 325-348 (after the restore), on the
`(Prop.Metrics, Prop.InstanceLabels)` pair: for a schema counter present in
`Prop.Metrics`, a string-typed counter becomes an instance label and is
marked not exportable; otherwise a missing denominator metric is added as a
non-exportable metric (except the synthetic `visits` of workload-detail
objects). -/
def pollCounterDenomPI (isDetail : Bool) (ov countersTbl : List (String × String))
    (pm : List (String × MetricDef)) (il : List (String × String)) (c : SchemaCounter) :
    List (String × MetricDef) × List (String × String) :=
  match lookupA pm c.name with
  | none => (pm, il)
  | some _ =>
    if containsSub (effType ov c) "string" then
      (setExportableFalse pm c.name,
       if (lookupA il c.name).isNone then
         insertA il c.name ((lookupA countersTbl c.name).getD "")
       else il)
    else
      if c.denominator ≠ "" ∧ lookupA pm c.denominator = none then
        if isDetail ∧ c.denominator = "visits" then (pm, il)
        else (insertA pm c.denominator (⟨c.denominator, "", "", false⟩ : MetricDef), il)
      else (pm, il)

/-- Lines 325-348 lifted to the full state (only `Prop.Metrics` and
`Prop.InstanceLabels` are touched). -/
def pollCounterDenom (isDetail : Bool) (ov countersTbl : List (String × String))
    (st1 : CounterState) (c : SchemaCounter) : CounterState :=
  { st1 with
    propMetrics :=
      (pollCounterDenomPI isDetail ov countersTbl st1.propMetrics st1.instanceLabels c).1,
    instanceLabels :=
      (pollCounterDenomPI isDetail ov countersTbl st1.propMetrics st1.instanceLabels c).2 }

/-- One step of the first `counterSchema.ForEach` (lines 303-350): skip
non-object entries, restore archived metrics, then process string types and
denominators. -/
def pollCounterPhase1Step (isDetail : Bool) (ov countersTbl : List (String × String))
    (st : CounterState) (c : SchemaCounter) : CounterState :=
  if !c.isObject then st
  else pollCounterDenom isDetail ov countersTbl (pollCounterRestore st c) c

/-- One step of the second `counterSchema.ForEach` (lines 352-377): mark a
schema counter present in `Prop.Metrics` as seen and register its counter
info (with the override applied) when absent. -/
def pollCounterPhase2Step (ov : List (String × String))
    (propMetrics : List (String × MetricDef))
    (acc : List String × List (String × Counter)) (c : SchemaCounter) :
    List String × List (String × Counter) :=
  if !c.isObject then acc
  else if (lookupA propMetrics c.name).isSome then
    (if c.name ∈ acc.1 then acc.1 else acc.1 ++ [c.name],
     if (lookupA acc.2 c.name).isSome then acc.2
     else insertA acc.2 c.name
       { name := c.name, description := c.description,
         counterType := effType ov c, unit := c.unit, denominator := c.denominator })
  else acc

/-- Names of the well-formed (object) schema entries. -/
def schemaObjectNames (schema : List SchemaCounter) : List String :=
  (schema.filter (fun c => c.isObject)).map SchemaCounter.name

/-- The metric-set portion of `pollCounter` (lines 283-415): run the two
schema passes, then archive every active metric not seen in the schema
(lines 379-388) and keep the rest. -/
def pollCounterModel (isDetail : Bool) (ov countersTbl : List (String × String))
    (schema : List SchemaCounter) (st : CounterState) : CounterState :=
  let st1 := schema.foldl (pollCounterPhase1Step isDetail ov countersTbl) st
  let sc := schema.foldl (pollCounterPhase2Step ov st1.propMetrics) ([], st1.counterInfo)
  { st1 with
    propMetrics := st1.propMetrics.filter (fun p => p.1 ∈ sc.1),
    archived := (st1.propMetrics.filter (fun p => p.1 ∉ sc.1)).foldl
      (fun a p => insertA a p.1 p.2) st1.archived,
    counterInfo := sc.2 }

/-- The fields of a metric the post-processor's control flow reads (never
written by the arithmetic primitives). -/
def mfields (m : MatrixM) (k : String) : Option (String × Bool × Option (List String)) :=
  (lookupA m.metrics k).map (fun mm => (mm.name, mm.isArray, mm.buckets))

/-- A state transition that only writes the values of metric `key` and the
property/comment metadata: instances, every metric's identity fields, and
every other metric's values are untouched. -/
def writesOnlyKey (key : String) (m m2 : MatrixM) : Prop :=
  m2.instances = m.instances ∧
  (∀ k, mfields m2 k = mfields m k) ∧
  (∀ k i, k ≠ key → getVal m2 k i = getVal m k i)

/-- The success condition for a rate metric at one instance: both raw
values and both timestamps are present, the raw delta is non-negative, and
the timestamp delta is positive. -/
def rateOk (cur prev : MatrixM) (key i : String) : Bool :=
  match getVal cur key i, getVal prev key i,
      getVal cur "timestamp" i, getVal prev "timestamp" i with
  | some cv, some pv, some t1, some t0 => decide (pv ≤ cv) && decide (t0 < t1)
  | _, _, _, _ => false

/-- The end-to-end cooked value of a rate metric at one instance: raw delta
divided by timestamp delta, guarded exactly as `Delta` and `Divide` are. -/
def rateResult (cur prev : MatrixM) (key i : String) : Option Rat :=
  match deltaFn cur prev key i, deltaFn cur prev "timestamp" i with
  | some n, some d => if 0 < d then some (n / d) else none
  | _, _ => none

/-- The counter-info and matrices of the worked rate example (spec
section 8, scenario 1): raw 100 → 400, timestamps 10 → 70. -/
def c1Counter : Counter :=
  { name := "total_ops", description := "", counterType := "rate", unit := "",
    denominator := "" }

def c1ci : List (String × Counter) := [("total_ops", c1Counter)]

def c1opsCur : MetricM :=
  { name := "total_ops", label := "", exportable := true, isArray := false,
    buckets := none, property := "", comment := "", labels := [],
    values := [("i1", 400)] }

def c1tsCur : MetricM :=
  { name := "timestamp", label := "", exportable := false, isArray := false,
    buckets := none, property := "", comment := "", labels := [],
    values := [("i1", 70)] }

def c1opsPrev : MetricM :=
  { c1opsCur with values := [("i1", 100)] }

def c1tsPrev : MetricM :=
  { c1tsCur with values := [("i1", 10)] }

def c1cur : MatrixM :=
  { instances := ["i1"],
    metrics := [("total_ops", c1opsCur), ("timestamp", c1tsCur)] }

def c1prev : MatrixM :=
  { instances := ["i1"],
    metrics := [("total_ops", c1opsPrev), ("timestamp", c1tsPrev)] }

@[simp] theorem keysA_nil {α : Type} : keysA ([] : List (String × α)) = [] := rfl

@[simp] theorem keysA_cons {α : Type} (a : String) (b : α) (rest : List (String × α)) :
    keysA ((a, b) :: rest) = a :: keysA rest := rfl

theorem lookupA_cons {α : Type} (a : String) (b : α) (rest : List (String × α)) (k : String) :
    lookupA ((a, b) :: rest) k = if a = k then some b else lookupA rest k := rfl

theorem eraseA_cons {α : Type} (a : String) (b : α) (rest : List (String × α)) (k : String) :
    eraseA ((a, b) :: rest) k =
      if a = k then eraseA rest k else (a, b) :: eraseA rest k := by
  by_cases h : a = k <;> simp [eraseA, List.filter_cons, h]

theorem lookupA_eraseA_ne {α : Type} (l : List (String × α)) (k k' : String) (h : k' ≠ k) :
    lookupA (eraseA l k) k' = lookupA l k' := by
  induction l with
  | nil => rfl
  | cons p rest ih =>
    obtain ⟨a, b⟩ := p
    rw [eraseA_cons]
    by_cases ha : a = k
    · rw [if_pos ha, ih, lookupA_cons, if_neg (fun hh => h (by rw [← hh, ha]))]
    · rw [if_neg ha, lookupA_cons, lookupA_cons, ih]

theorem lookupA_eraseA_self {α : Type} (l : List (String × α)) (k : String) :
    lookupA (eraseA l k) k = none := by
  induction l with
  | nil => rfl
  | cons p rest ih =>
    obtain ⟨a, b⟩ := p
    rw [eraseA_cons]
    by_cases ha : a = k
    · rw [if_pos ha]; exact ih
    · rw [if_neg ha, lookupA_cons, if_neg ha]; exact ih

theorem lookupA_insertA_self {α : Type} (l : List (String × α)) (k : String) (v : α) :
    lookupA (insertA l k v) k = some v := by
  simp [insertA, lookupA]

theorem lookupA_insertA_ne {α : Type} (l : List (String × α)) (k k' : String) (v : α)
    (h : k' ≠ k) : lookupA (insertA l k v) k' = lookupA l k' := by
  simp only [insertA, lookupA]
  rw [if_neg (fun hh => h hh.symm)]
  exact lookupA_eraseA_ne l k k' h

theorem keysA_eraseA {α : Type} (l : List (String × α)) (k : String) :
    keysA (eraseA l k) = (keysA l).filter (fun x => x ≠ k) := by
  induction l with
  | nil => rfl
  | cons p rest ih =>
    obtain ⟨a, b⟩ := p
    by_cases h : a = k <;> simp [eraseA_cons, List.filter_cons, h, ih]

theorem mem_keysA_eraseA {α : Type} (l : List (String × α)) (k k' : String) :
    k' ∈ keysA (eraseA l k) ↔ k' ≠ k ∧ k' ∈ keysA l := by
  rw [keysA_eraseA]
  simp only [List.mem_filter, decide_eq_true_eq]
  tauto

theorem mem_keysA_insertA {α : Type} (l : List (String × α)) (k k' : String) (v : α) :
    k' ∈ keysA (insertA l k v) ↔ k' = k ∨ k' ∈ keysA l := by
  show k' ∈ keysA ((k, v) :: eraseA l k) ↔ _
  rw [keysA_cons, List.mem_cons, mem_keysA_eraseA]
  by_cases h : k' = k <;> simp [h]

theorem lookupA_isSome_iff_mem_keysA {α : Type} (l : List (String × α)) (k : String) :
    (lookupA l k).isSome ↔ k ∈ keysA l := by
  induction l with
  | nil => simp [lookupA]
  | cons p rest ih =>
    obtain ⟨a, b⟩ := p
    rw [lookupA_cons, keysA_cons, List.mem_cons]
    by_cases h : a = k
    · simp [h]
    · rw [if_neg h, ih]
      constructor
      · exact Or.inr
      · rintro (rfl | hh)
        · exact absurd rfl h
        · exact hh

theorem mem_of_lookupA_eq_some {α : Type} {l : List (String × α)} {k : String} {v : α}
    (h : lookupA l k = some v) : (k, v) ∈ l := by
  induction l with
  | nil => simp [lookupA] at h
  | cons p rest ih =>
    obtain ⟨a, b⟩ := p
    rw [lookupA_cons] at h
    by_cases ha : a = k
    · rw [if_pos ha] at h
      subst ha
      cases h
      exact List.mem_cons_self _ _
    · rw [if_neg ha] at h
      exact List.mem_cons_of_mem _ (ih h)

theorem lookupA_eq_some_of_mem_nodup {α : Type} {l : List (String × α)} {k : String} {v : α}
    (hnd : (keysA l).Nodup) (h : (k, v) ∈ l) : lookupA l k = some v := by
  induction l with
  | nil => simp at h
  | cons p rest ih =>
    obtain ⟨a, b⟩ := p
    rw [keysA_cons, List.nodup_cons] at hnd
    rcases List.mem_cons.mp h with h1 | h1
    · cases h1
      simp [lookupA]
    · have hak : a ≠ k := by
        intro hak
        subst hak
        exact hnd.1 (List.mem_map_of_mem Prod.fst h1)
      rw [lookupA_cons, if_neg hak]
      exact ih hnd.2 h1

theorem cutChars_append_self (sep : Char) (xs ys : List Char) (h : sep ∉ xs) :
    cutChars sep (xs ++ sep :: ys) = some (xs, ys) := by
  induction xs with
  | nil => simp [cutChars]
  | cons c rest ih =>
    simp only [List.mem_cons, not_or] at h
    show cutChars sep (c :: (rest ++ sep :: ys)) = _
    rw [cutChars, if_neg (fun hc => h.1 hc.symm), ih h.2]

theorem cutChars_eq_none (sep : Char) (xs : List Char) (h : sep ∉ xs) :
    cutChars sep xs = none := by
  induction xs with
  | nil => rfl
  | cons c rest ih =>
    simp only [List.mem_cons, not_or] at h
    rw [cutChars, if_neg (fun hc => h.1 hc.symm), ih h.2]

/-- Helper: rebuilding a string from its character data is the identity. -/
theorem stringMk_data (s : String) : String.mk s.data = s := rfl

/-! ## Theorems for claims C4, C7, C10 -/

/-- C4 (counterexample): the claim says a `TableNotFound` transport error in
PollData is returned wrapped as `ErrAPIRequestRejected`; in the code the
`PollData` fetch error path (lines 727-730) wraps every error as a plain
pass-through error, so a `TableNotFound` error is NOT an
`ErrAPIRequestRejected` there. -/
theorem pollData_tableNotFound_not_rejected :
    pollDataOnFetchError RestErrKind.tableNotFound =
      PollErr.passThrough RestErrKind.tableNotFound ∧
    pollDataOnFetchError RestErrKind.tableNotFound ≠
      PollErr.apiRequestRejected RestErrKind.tableNotFound := by
  exact ⟨rfl, by decide⟩

/-- C4 (amended): in `PollCounter` and `PollInstance` a transport error of
kind `TableNotFound` or `APINotFound` aborts the cycle wrapped as
`ErrAPIRequestRejected` and every other transport error aborts the cycle as a
pass-through error; in `PollData` every transport error aborts the cycle as a
pass-through error, with no error-kind dispatch. -/
theorem pollPhase_error_routing :
    ∀ e : RestErrKind,
      ((e = RestErrKind.tableNotFound ∨ e = RestErrKind.apiNotFound) →
        pollCounterOnFetchError e = PollErr.apiRequestRejected e ∧
        pollInstanceOnFetchError e = PollErr.apiRequestRejected e) ∧
      (e ≠ RestErrKind.tableNotFound → e ≠ RestErrKind.apiNotFound →
        pollCounterOnFetchError e = PollErr.passThrough e ∧
        pollInstanceOnFetchError e = PollErr.passThrough e) ∧
      pollDataOnFetchError e = PollErr.passThrough e := by
  intro e
  cases e <;> decide

/-- C4 witness: the routing theorem applied to concrete error kinds. -/
theorem pollPhase_error_routing_witness :
    pollCounterOnFetchError RestErrKind.tableNotFound =
      PollErr.apiRequestRejected RestErrKind.tableNotFound ∧
    pollCounterOnFetchError RestErrKind.other =
      PollErr.passThrough RestErrKind.other := by
  refine ⟨((pollPhase_error_routing RestErrKind.tableNotFound).1 (Or.inl rfl)).1, ?_⟩
  exact ((pollPhase_error_routing RestErrKind.other).2.1 (by decide) (by decide)).1

/-- C7 (counterexample): the claim says the final `.<resource>` suffix is
split off.  On the raw key `"clA:wl.x.CPU"` the code (`strings.Cut`, which
splits at the FIRST dot) produces workload `"wl"` with layer `"x.CPU"`,
whereas a final-dot split would produce workload `"wl.x"` with layer
`"CPU"`. -/
theorem workloadKey_counterexample :
    workloadInstanceKeyLayer "clA:wl.x.CPU" = some ("wl", "x.CPU") ∧
    workloadInstanceKeyLayerLastDot "clA:wl.x.CPU" = some ("wl.x", "CPU") ∧
    workloadInstanceKeyLayer "clA:wl.x.CPU" ≠
      workloadInstanceKeyLayerLastDot "clA:wl.x.CPU" := by
  refine ⟨by decide, by decide, by decide⟩

/-- C7 (amended): for a workload-detail raw instance key the cluster prefix
up to the first `':'` is stripped, then the key is split at the FIRST `'.'`,
whose remainder becomes the layer tag; records whose stripped key lacks a
`'.'` separator are skipped. -/
theorem workloadKey_transform (c w r s : String)
    (hc : ':' ∉ c.data) (hw : '.' ∉ w.data)
    (hsc : ':' ∉ s.data) (hsd : '.' ∉ s.data) :
    workloadInstanceKeyLayer (c ++ ":" ++ w ++ "." ++ r) = some (w, r) ∧
    workloadInstanceKeyLayer s = none := by
  constructor
  · have hdata : (c ++ ":" ++ w ++ "." ++ r).data
        = c.data ++ ':' :: (w.data ++ '.' :: r.data) := by
      show c.data ++ ":".data ++ w.data ++ ".".data ++ r.data = _
      simp
    have h1 : cutS (c ++ ":" ++ w ++ "." ++ r) ':'
        = some (String.mk c.data, String.mk (w.data ++ '.' :: r.data)) := by
      unfold cutS
      rw [hdata, cutChars_append_self ':' c.data _ hc]
      rfl
    unfold workloadInstanceKeyLayer
    rw [h1]
    show cutS (String.mk (w.data ++ '.' :: r.data)) '.' = some (w, r)
    unfold cutS
    rw [show (String.mk (w.data ++ '.' :: r.data)).data = w.data ++ '.' :: r.data from rfl,
      cutChars_append_self '.' w.data r.data hw]
    rfl
  · have h1 : cutS s ':' = none := by
      unfold cutS
      rw [cutChars_eq_none ':' s.data hsc]
      rfl
    unfold workloadInstanceKeyLayer
    rw [h1]
    show cutS s '.' = none
    unfold cutS
    rw [cutChars_eq_none '.' s.data hsd]
    rfl

/-- C7 witness: the transformation applied to the example key from the
source comment (line 848). -/
theorem workloadKey_transform_witness :
    workloadInstanceKeyLayer "umeng-aff300-02:test-wid12022.CPU_dblade"
      = some ("test-wid12022", "CPU_dblade") ∧
    workloadInstanceKeyLayer "plainkey" = none := by
  have h := workloadKey_transform "umeng-aff300-02" "test-wid12022" "CPU_dblade"
    "plainkey" (by decide) (by decide) (by decide) (by decide)
  have he : ("umeng-aff300-02" ++ ":" ++ "test-wid12022" ++ "." ++ "CPU_dblade" : String)
      = "umeng-aff300-02:test-wid12022.CPU_dblade" := by decide
  exact ⟨he ▸ h.1, h.2⟩

/-- C10: `InitQOS` appends `"service_time_latency"` to the package-global
`workloadDetailMetrics` exactly when the template has a `counters.refine`
block whose `with_service_latency` content is not `"false"`; each such call
grows the slice by one element (the update is not idempotent), and
`"wait_time_latency"` is never appended by any input. -/
theorem initQOS_workloadDetailMetrics_growth :
    (∀ wc wsl dc wdm, wsl ≠ "false" →
      (initQOSRefine (some (wc, wsl)) dc wdm).2 = wdm ++ ["service_time_latency"]) ∧
    (∀ refine dc wdm, "wait_time_latency" ∉ wdm →
      "wait_time_latency" ∉ (initQOSRefine refine dc wdm).2) ∧
    (∀ wc wsl dc wdm n, wsl ≠ "false" →
      ((fun w => (initQOSRefine (some (wc, wsl)) dc w).2)^[n] wdm).length
        = wdm.length + n) := by
  refine ⟨?_, ?_, ?_⟩
  · intro wc wsl dc wdm h
    simp [initQOSRefine, h]
  · intro refine dc wdm h
    match refine with
    | none => exact h
    | some (wc, wsl) =>
      by_cases hw : wsl = "false"
      · simpa [initQOSRefine, hw] using h
      · have hv : (initQOSRefine (some (wc, wsl)) dc wdm).2
            = wdm ++ ["service_time_latency"] := by
          simp [initQOSRefine, hw]
        rw [hv]
        simp only [List.mem_append, List.mem_singleton]
        rintro (hin | hin)
        · exact h hin
        · exact absurd hin (by decide)
  · intro wc wsl dc wdm n h
    induction n generalizing wdm with
    | zero => simp
    | succ m ih =>
      have hv : (initQOSRefine (some (wc, wsl)) dc wdm).2
          = wdm ++ ["service_time_latency"] := by
        simp [initQOSRefine, h]
      rw [Function.iterate_succ_apply, ih, hv]
      simp only [List.length_append, List.length_cons, List.length_nil]
      omega

/-- C10 witness: starting from the initial global slice, one enabled call
yields a two-element slice, two calls a three-element one, and
`"wait_time_latency"` never appears. -/
theorem initQOS_workloadDetailMetrics_growth_witness :
    (initQOSRefine (some ("", "")) false workloadDetailMetricsInit).2
      = ["resource_latency", "service_time_latency"] ∧
    "wait_time_latency" ∉
      (initQOSRefine (some ("", "")) false workloadDetailMetricsInit).2 ∧
    ((fun w => (initQOSRefine (some ("", "")) false w).2)^[2]
        workloadDetailMetricsInit).length = 3 := by
  refine ⟨?_, ?_, ?_⟩
  · rw [initQOS_workloadDetailMetrics_growth.1 "" "" false workloadDetailMetricsInit
      (by decide)]
    rfl
  · exact initQOS_workloadDetailMetrics_growth.2.1 (some ("", "")) false
      workloadDetailMetricsInit (by decide)
  · rw [initQOS_workloadDetailMetrics_growth.2.2 "" "" false
      workloadDetailMetricsInit 2 (by decide)]
    decide

/-! ## Theorems for claims C2 and C9 -/

/-- C2: while `isCacheEmpty` is set, `pollData` skips post-processing,
stores the freshly populated matrix as the new previous matrix, clears the
flag, and emits nothing; with the flag cleared (every later cycle) a cooked
matrix is emitted. -/
theorem pollData_first_cycle_behavior :
    ∀ (ci : List (String × Counter)) (minOps : Rat) (prevStored cur : MatrixM),
      pollDataFinish ci minOps { isCacheEmpty := true, stored := prevStored } cur
        = ({ isCacheEmpty := false, stored := cur }, none) ∧
      (pollDataFinish ci minOps { isCacheEmpty := false, stored := prevStored } cur).2.isSome
        = true := by
  intro ci minOps prevStored cur
  exact ⟨rfl, rfl⟩

theorem getMetric_self_isSome (cur prev : MatrixM) (key display : String) :
    (lookupA (getMetric cur prev key display).1.metrics key).isSome ∧
    (lookupA (getMetric cur prev key display).2.metrics key).isSome := by
  constructor
  · show (lookupA (match lookupA cur.metrics key with
      | some _ => cur
      | none => { cur with metrics := insertA cur.metrics key (newMetricFloat64 key display) }).metrics key).isSome
    cases h : lookupA cur.metrics key with
    | some mm => simp [h]
    | none => simp [lookupA_insertA_self]
  · show (lookupA (match lookupA prev.metrics key with
      | some _ => prev
      | none => { prev with metrics := insertA prev.metrics key (newMetricFloat64 key display) }).metrics key).isSome
    cases h : lookupA prev.metrics key with
    | some mm => simp [h]
    | none => simp [lookupA_insertA_self]

theorem getMetric_preserves_prev (cur prev : MatrixM) (key display k : String)
    (h : (lookupA prev.metrics k).isSome) :
    (lookupA (getMetric cur prev key display).2.metrics k).isSome := by
  show (lookupA (match lookupA prev.metrics key with
    | some _ => prev
    | none => { prev with metrics := insertA prev.metrics key (newMetricFloat64 key display) }).metrics k).isSome
  cases hp : lookupA prev.metrics key with
  | some mm => simpa using h
  | none =>
    by_cases hk : k = key
    · subst hk
      simp [lookupA_insertA_self]
    · simpa [lookupA_insertA_ne _ _ _ _ hk] using h

theorem getMetric_preserves_counterpart (cur prev : MatrixM) (key display : String)
    (h : ∀ k, (lookupA cur.metrics k).isSome → (lookupA prev.metrics k).isSome) :
    ∀ k, (lookupA (getMetric cur prev key display).1.metrics k).isSome →
      (lookupA (getMetric cur prev key display).2.metrics k).isSome := by
  intro k hk
  by_cases hkey : k = key
  · subst hkey
    exact (getMetric_self_isSome cur prev k display).2
  · have hcur : (lookupA cur.metrics k).isSome := by
      revert hk
      show (lookupA (match lookupA cur.metrics key with
        | some _ => cur
        | none => { cur with metrics := insertA cur.metrics key (newMetricFloat64 key display) }).metrics k).isSome → _
      cases hc : lookupA cur.metrics key with
      | some mm => simp
      | none => simpa [lookupA_insertA_ne _ _ _ _ hkey] using id
    exact getMetric_preserves_prev cur prev key display k (h k hcur)

/-- C9: `getMetric` creates the requested key in the current matrix and, when
absent, also in the previous matrix; it never removes a previous-matrix
metric; and along any sequence of `getMetric` calls, if every current-matrix
metric initially has a previous-matrix counterpart (the data-poll clone
starts from the previous matrix's metrics), this remains true, so delta
computation never addresses a metric missing from the previous matrix. -/
theorem getMetric_prev_counterpart :
    (∀ cur prev key display,
      (lookupA (getMetric cur prev key display).1.metrics key).isSome ∧
      (lookupA (getMetric cur prev key display).2.metrics key).isSome) ∧
    (∀ cur prev key display k, (lookupA prev.metrics k).isSome →
      (lookupA (getMetric cur prev key display).2.metrics k).isSome) ∧
    (∀ (calls : List (String × String)) (cur prev : MatrixM),
      (∀ k, (lookupA cur.metrics k).isSome → (lookupA prev.metrics k).isSome) →
      ∀ k,
        (lookupA (calls.foldl (fun p kd => getMetric p.1 p.2 kd.1 kd.2) (cur, prev)).1.metrics k).isSome →
        (lookupA (calls.foldl (fun p kd => getMetric p.1 p.2 kd.1 kd.2) (cur, prev)).2.metrics k).isSome) := by
  refine ⟨getMetric_self_isSome, getMetric_preserves_prev, ?_⟩
  intro calls
  induction calls with
  | nil => intro cur prev h k; exact h k
  | cons kd rest ih =>
    intro cur prev h k
    simp only [List.foldl_cons]
    exact ih (getMetric cur prev kd.1 kd.2).1 (getMetric cur prev kd.1 kd.2).2
      (getMetric_preserves_counterpart cur prev kd.1 kd.2 h) k

/-- C9 witness: a concrete `getMetric` call on a matrix missing the key in
both current and previous matrices, and a two-call fold. -/
theorem getMetric_prev_counterpart_witness :
    (lookupA (getMetric { instances := ["A"], metrics := [] }
        { instances := ["A"], metrics := [] } "m1" "M1").2.metrics "m1").isSome ∧
    (lookupA ([("m1", "M1"), ("m2", "M2")].foldl
        (fun p kd => getMetric p.1 p.2 kd.1 kd.2)
        ({ instances := ["A"], metrics := [] }, { instances := ["A"], metrics := [] })).2.metrics
      "m2").isSome := by
  constructor
  · exact (getMetric_prev_counterpart.1 { instances := ["A"], metrics := [] }
      { instances := ["A"], metrics := [] } "m1" "M1").2
  · refine getMetric_prev_counterpart.2.2 [("m1", "M1"), ("m2", "M2")]
      { instances := ["A"], metrics := [] } { instances := ["A"], metrics := [] }
      (fun k h => by simpa [lookupA] using h) "m2" ?_
    decide

/-! ## Lemmas and theorems for claim C6 -/

theorem stringDataAppend (a b : String) : (a ++ b).data = a.data ++ b.data := rfl

theorem string_append_left_cancel {a b c : String} (h : a ++ b = a ++ c) : b = c := by
  have h2 : (a ++ b).data = (a ++ c).data := congrArg String.data h
  rw [stringDataAppend, stringDataAppend] at h2
  have h3 : b.data = c.data := List.append_cancel_left h2
  cases b
  cases c
  exact congrArg String.mk h3

theorem mem_first_split {α : Type} [DecidableEq α] {a : α} {l : List α} (h : a ∈ l) :
    ∃ s t, l = s ++ a :: t ∧ a ∉ s := by
  induction l with
  | nil => simp at h
  | cons b rest ih =>
    by_cases hb : a = b
    · exact ⟨[], rest, by simp [hb], by simp⟩
    · have hr : a ∈ rest := by
        rcases List.mem_cons.mp h with h1 | h1
        · exact absurd h1 hb
        · exact h1
      obtain ⟨s, t, hst, hns⟩ := ih hr
      exact ⟨b :: s, t, by rw [hst]; rfl, by simp [hns, hb]⟩

theorem pwcSynthInner_preserves (sci : Counter) (x : String × String)
    (acc2 : MatrixM × List (String × Counter)) (wm n : String) (v : MetricM) (cv : Counter)
    (hm : lookupA acc2.1.metrics n = some v) (hc : lookupA acc2.2 n = some cv) :
    lookupA (pwcSynthInner sci x acc2 wm).1.metrics n = some v ∧
    lookupA (pwcSynthInner sci x acc2 wm).2 n = some cv := by
  unfold pwcSynthInner
  cases hl : lookupA acc2.1.metrics (x.1 ++ wm) with
  | some mm => exact ⟨hm, hc⟩
  | none =>
    have hne : n ≠ x.1 ++ wm := by
      intro he
      rw [← he, hm] at hl
      cases hl
    constructor
    · show lookupA (insertA acc2.1.metrics (x.1 ++ wm) _) n = some v
      rw [lookupA_insertA_ne _ _ _ _ hne]
      exact hm
    · show lookupA (insertA acc2.2 (x.1 ++ wm) _) n = some cv
      rw [lookupA_insertA_ne _ _ _ _ hne]
      exact hc

theorem pwcSynthStep_preserves (sci : Counter) (wdm : List String) (x : String × String)
    (acc : MatrixM × List (String × Counter)) (n : String) (v : MetricM) (cv : Counter)
    (hm : lookupA acc.1.metrics n = some v) (hc : lookupA acc.2 n = some cv) :
    lookupA (pwcSynthStep sci wdm acc x).1.metrics n = some v ∧
    lookupA (pwcSynthStep sci wdm acc x).2 n = some cv := by
  unfold pwcSynthStep
  induction wdm generalizing acc with
  | nil => exact ⟨hm, hc⟩
  | cons w rest ih =>
    rw [List.foldl_cons]
    obtain ⟨h1, h2⟩ := pwcSynthInner_preserves sci x acc w n v cv hm hc
    exact ih (pwcSynthInner sci x acc w) h1 h2

theorem pwcSynth_fold_preserves (sci : Counter) (wdm : List String)
    (L : List (String × String)) (acc : MatrixM × List (String × Counter))
    (n : String) (v : MetricM) (cv : Counter)
    (hm : lookupA acc.1.metrics n = some v) (hc : lookupA acc.2 n = some cv) :
    lookupA (L.foldl (pwcSynthStep sci wdm) acc).1.metrics n = some v ∧
    lookupA (L.foldl (pwcSynthStep sci wdm) acc).2 n = some cv := by
  induction L generalizing acc with
  | nil => exact ⟨hm, hc⟩
  | cons x rest ih =>
    rw [List.foldl_cons]
    obtain ⟨h1, h2⟩ := pwcSynthStep_preserves sci wdm x acc n v cv hm hc
    exact ih (pwcSynthStep sci wdm acc x) h1 h2

theorem pwcSynthInner_preserves_none (sci : Counter) (x : String × String)
    (acc2 : MatrixM × List (String × Counter)) (wm n : String)
    (h : lookupA acc2.1.metrics n = none) (hne : x.1 ++ wm ≠ n) :
    lookupA (pwcSynthInner sci x acc2 wm).1.metrics n = none := by
  unfold pwcSynthInner
  cases hl : lookupA acc2.1.metrics (x.1 ++ wm) with
  | some mm => exact h
  | none =>
    show lookupA (insertA acc2.1.metrics (x.1 ++ wm) _) n = none
    rw [lookupA_insertA_ne _ _ _ _ (fun he => hne he.symm)]
    exact h

theorem pwcSynthStep_preserves_none (sci : Counter) (wdm : List String)
    (x : String × String) (acc : MatrixM × List (String × Counter)) (n : String)
    (h : lookupA acc.1.metrics n = none) (hne : ∀ w ∈ wdm, x.1 ++ w ≠ n) :
    lookupA (pwcSynthStep sci wdm acc x).1.metrics n = none := by
  unfold pwcSynthStep
  induction wdm generalizing acc with
  | nil => exact h
  | cons w rest ih =>
    rw [List.foldl_cons]
    exact ih (pwcSynthInner sci x acc w)
      (pwcSynthInner_preserves_none sci x acc w n h (hne w (List.mem_cons_self _ _)))
      (fun w' hw' => hne w' (List.mem_cons_of_mem _ hw'))

theorem pwcSynth_fold_preserves_none (sci : Counter) (wdm : List String)
    (L : List (String × String)) (acc : MatrixM × List (String × Counter)) (n : String)
    (h : lookupA acc.1.metrics n = none)
    (hne : ∀ p ∈ L, ∀ w ∈ wdm, p.1 ++ w ≠ n) :
    lookupA (L.foldl (pwcSynthStep sci wdm) acc).1.metrics n = none := by
  induction L generalizing acc with
  | nil => exact h
  | cons x rest ih =>
    rw [List.foldl_cons]
    exact ih (pwcSynthStep sci wdm acc x)
      (pwcSynthStep_preserves_none sci wdm x acc n h
        (fun w hw' => hne x (List.mem_cons_self _ _) w hw'))
      (fun p hp w hw' => hne p (List.mem_cons_of_mem _ hp) w hw')

theorem pwcSynthStep_creates (sci : Counter) (wdm : List String) (x : String × String)
    (acc : MatrixM × List (String × Counter)) (wm : String) (hwm : wm ∈ wdm)
    (habs : lookupA acc.1.metrics (x.1 ++ wm) = none) :
    lookupA (pwcSynthStep sci wdm acc x).1.metrics (x.1 ++ wm)
      = some { newMetricFloat64 (x.1 ++ wm) wm with labels := [("resource", x.2)] } ∧
    lookupA (pwcSynthStep sci wdm acc x).2 (x.1 ++ wm)
      = some { name := wm, description := "", counterType := sci.counterType,
               unit := sci.unit, denominator := "ops" } := by
  obtain ⟨s, t, hst, hns⟩ := mem_first_split hwm
  unfold pwcSynthStep
  rw [hst, List.foldl_append, List.foldl_cons]
  have habs2 : lookupA (s.foldl (pwcSynthInner sci x) acc).1.metrics (x.1 ++ wm) = none := by
    clear hst
    induction s generalizing acc with
    | nil => exact habs
    | cons w rest ih =>
      rw [List.foldl_cons]
      have hwne : x.1 ++ w ≠ x.1 ++ wm := by
        intro he
        exact hns (by rw [string_append_left_cancel he]; exact List.mem_cons_self _ _)
      exact ih (pwcSynthInner sci x acc w)
        (pwcSynthInner_preserves_none sci x acc w (x.1 ++ wm) habs hwne)
        (fun hh => hns (List.mem_cons_of_mem _ hh))
  set acc1 := s.foldl (pwcSynthInner sci x) acc with hacc1
  have hcreate1 : lookupA (pwcSynthInner sci x acc1 wm).1.metrics (x.1 ++ wm)
      = some { newMetricFloat64 (x.1 ++ wm) wm with labels := [("resource", x.2)] } := by
    unfold pwcSynthInner
    rw [habs2]
    exact lookupA_insertA_self _ _ _
  have hcreate2 : lookupA (pwcSynthInner sci x acc1 wm).2 (x.1 ++ wm)
      = some { name := wm, description := "", counterType := sci.counterType,
               unit := sci.unit, denominator := "ops" } := by
    unfold pwcSynthInner
    rw [habs2]
    exact lookupA_insertA_self _ _ _
  have := pwcSynthStep_preserves sci t x (pwcSynthInner sci x acc1 wm) (x.1 ++ wm)
    _ _ hcreate1 hcreate2
  unfold pwcSynthStep at this
  exact this

theorem pwcOps_ci_preserved (mat : MatrixM) (ci : List (String × Counter)) (k : String)
    (hk : k ≠ "ops") : lookupA (pwcOps mat ci).2 k = lookupA ci k := by
  unfold pwcOps
  cases lookupA mat.metrics "ops" with
  | some mm => rfl
  | none => exact lookupA_insertA_ne _ _ _ _ hk

theorem pwcOps_metrics_preserved (mat : MatrixM) (ci : List (String × Counter)) (k : String)
    (hk : k ≠ "ops") : lookupA (pwcOps mat ci).1.metrics k = lookupA mat.metrics k := by
  unfold pwcOps
  cases lookupA mat.metrics "ops" with
  | some mm => rfl
  | none => exact lookupA_insertA_ne _ _ _ _ hk

theorem pwcUnexport_metrics_preserved (mat : MatrixM) (k : String)
    (h1 : k ≠ "service_time") (h2 : k ≠ "wait_time") :
    lookupA (pwcUnexport mat).metrics k = lookupA mat.metrics k := by
  unfold pwcUnexport
  cases hs : lookupA mat.metrics "service_time" with
  | none => rfl
  | some s =>
    cases hw : lookupA mat.metrics "wait_time" with
    | none => rfl
    | some w =>
      show lookupA (insertA (insertA mat.metrics "service_time" _) "wait_time" _) k = _
      rw [lookupA_insertA_ne _ _ _ _ h2, lookupA_insertA_ne _ _ _ _ h1]

/-- C6 (counterexample): with `with_service_latency` enabled from a fresh
start (`workloadDetailMetrics == ["resource_latency", "service_time_latency"]`
after `InitQOS`), the synthesizer creates `{tag}resource_latency` and
`{tag}service_time_latency` for the resource tag but does NOT create
`{tag}wait_time_latency`, contrary to the claim. -/
theorem processWorkLoadCounter_no_wait_time_latency :
    (processWorkLoadCounter true
        [("service_time", ⟨"service_time", "svc", "", true⟩),
         ("wait_time", ⟨"wait_time", "wait", "", true⟩)]
        (some [("CPU_dblade", "DBlade CPU")])
        (initQOSRefine (some ("", "true")) false workloadDetailMetricsInit).2
        { instances := [], metrics := [] }
        [("service_time",
          ⟨"service_time", "", "average", "microsec", "visits"⟩)]).toOption.map
      (fun r =>
        ((lookupA r.1.metrics "CPU_dbladeresource_latency").isSome,
         (lookupA r.1.metrics "CPU_dbladeservice_time_latency").isSome,
         (lookupA r.1.metrics "CPU_dbladewait_time_latency").isSome))
      = some (true, true, false) := by
  decide

/-- C6 (amended): for workload-detail objects with
`refine.with_service_latency` enabled, the synthesizer creates, for every
resource tag of `resource_map`, the metrics `{tag}resource_latency` and
`{tag}service_time_latency` (and NOT `{tag}wait_time_latency`), each with
counter info cloned from `service_time`'s type and unit, denominator set to
`ops`, display label equal to the workload-detail metric name, and a
`resource` label taken from the resource-map entry. -/
theorem processWorkLoadCounter_synthesizes
    (propMetrics : List (String × MetricDef)) (rmap : List (String × String))
    (wdm : List String) (mat : MatrixM) (ci : List (String × Counter)) (sci : Counter)
    (tag res wm : String)
    (hs : (lookupA (pwcEnsureMetrics propMetrics mat).metrics "service_time").isSome)
    (hw : (lookupA (pwcEnsureMetrics propMetrics mat).metrics "wait_time").isSome)
    (hsci : lookupA ci "service_time" = some sci)
    (hmem : (tag, res) ∈ rmap) (hwmm : wm ∈ wdm)
    (hfresh : ∀ p ∈ rmap, ∀ w ∈ wdm,
      lookupA (pwcEnsureMetrics propMetrics mat).metrics (p.1 ++ w) = none ∧
      p.1 ++ w ≠ "ops" ∧ p.1 ++ w ≠ "service_time" ∧ p.1 ++ w ≠ "wait_time")
    (hinj : ∀ p ∈ rmap, ∀ p' ∈ rmap, ∀ w ∈ wdm, ∀ w' ∈ wdm,
      p.1 ++ w = p'.1 ++ w' → p = p' ∧ w = w') :
    ∃ r, processWorkLoadCounter true propMetrics (some rmap) wdm mat ci
        = Except.ok r ∧
      lookupA r.1.metrics (tag ++ wm)
        = some { newMetricFloat64 (tag ++ wm) wm with labels := [("resource", res)] } ∧
      lookupA r.2 (tag ++ wm)
        = some { name := wm, description := "", counterType := sci.counterType,
                 unit := sci.unit, denominator := "ops" } := by
  have hsci2 : lookupA (pwcOps (pwcEnsureMetrics propMetrics mat) ci).2 "service_time"
      = some sci := by
    rw [pwcOps_ci_preserved _ _ _ (by decide)]
    exact hsci
  refine ⟨(rmap.foldl
      (pwcSynthStep sci wdm)
      (pwcUnexport (pwcOps (pwcEnsureMetrics propMetrics mat) ci).1,
       (pwcOps (pwcEnsureMetrics propMetrics mat) ci).2)), ?_, ?_⟩
  · unfold processWorkLoadCounter
    obtain ⟨sv, hsv⟩ := Option.isSome_iff_exists.mp hs
    obtain ⟨wv, hwv⟩ := Option.isSome_iff_exists.mp hw
    simp only [Bool.not_true, if_neg, hsv, hwv, Option.isNone_some, Bool.or_self,
      Bool.false_eq_true, if_false, hsci2]
  · -- initial absence of the synthesized key in the state entering the fold
    obtain ⟨hf0, hfo, hfs, hfw⟩ := hfresh (tag, res) hmem wm hwmm
    have habs0 : lookupA
        (pwcUnexport (pwcOps (pwcEnsureMetrics propMetrics mat) ci).1).metrics
        (tag ++ wm) = none := by
      rw [pwcUnexport_metrics_preserved _ _ hfs hfw,
        pwcOps_metrics_preserved _ _ _ hfo]
      exact hf0
    obtain ⟨r1, r2, hsplit, hnotin⟩ := mem_first_split hmem
    have hsub : ∀ p ∈ r1, p ∈ rmap := by
      intro p hp
      rw [hsplit]
      exact List.mem_append_left _ hp
    rw [hsplit, List.foldl_append, List.foldl_cons]
    -- phase A: the prefix r1 never touches tag ++ wm
    have habs1 : lookupA
        (r1.foldl (pwcSynthStep sci wdm)
          (pwcUnexport (pwcOps (pwcEnsureMetrics propMetrics mat) ci).1,
           (pwcOps (pwcEnsureMetrics propMetrics mat) ci).2)).1.metrics
        (tag ++ wm) = none := by
      refine pwcSynth_fold_preserves_none sci wdm r1 _ _ habs0 ?_
      intro p hp w hw' he
      obtain ⟨hpe, hwe⟩ := hinj p (hsub p hp) (tag, res) hmem w hw' wm hwmm he
      exact hnotin (hpe ▸ hp)
    -- phase B: the (tag, res) step creates the metric and counter info
    have hcr := pwcSynthStep_creates sci wdm (tag, res) _ wm hwmm habs1
    -- phase C: the suffix r2 preserves both
    exact pwcSynth_fold_preserves sci wdm r2 _ (tag ++ wm) _ _ hcr.1 hcr.2

/-- C6 witness: the amended synthesis theorem applied to a concrete
workload-detail template with one resource-map entry. -/
theorem processWorkLoadCounter_synthesizes_witness :
    ∃ r, processWorkLoadCounter true
        [("service_time", ⟨"service_time", "svc", "", true⟩),
         ("wait_time", ⟨"wait_time", "wait", "", true⟩)]
        (some [("CPU_dblade", "DBlade CPU")])
        ["resource_latency", "service_time_latency"]
        { instances := [], metrics := [] }
        [("service_time", ⟨"service_time", "", "average", "microsec", "visits"⟩)]
        = Except.ok r ∧
      lookupA r.1.metrics ("CPU_dblade" ++ "resource_latency")
        = some { newMetricFloat64 ("CPU_dblade" ++ "resource_latency") "resource_latency"
                 with labels := [("resource", "DBlade CPU")] } ∧
      lookupA r.2 ("CPU_dblade" ++ "resource_latency")
        = some { name := "resource_latency", description := "", counterType := "average",
                 unit := "microsec", denominator := "ops" } :=
  processWorkLoadCounter_synthesizes
    [("service_time", ⟨"service_time", "svc", "", true⟩),
     ("wait_time", ⟨"wait_time", "wait", "", true⟩)]
    [("CPU_dblade", "DBlade CPU")]
    ["resource_latency", "service_time_latency"]
    { instances := [], metrics := [] }
    [("service_time", ⟨"service_time", "", "average", "microsec", "visits"⟩)]
    ⟨"service_time", "", "average", "microsec", "visits"⟩
    "CPU_dblade" "DBlade CPU" "resource_latency"
    (by decide) (by decide) (by decide) (by decide) (by decide) (by decide) (by decide)

/-! ## Lemmas and theorems for claims C5 and C8 -/

theorem mem_filter_ne (l : List String) (x k : String) :
    x ∈ l.filter (fun y => y ≠ k) ↔ x ∈ l ∧ x ≠ k := by
  simp [List.mem_filter]

theorem pollInstanceStep_subset (cfg : InstanceConfig) (st : List String × List String)
    (rec : IRecord) (hsub : ∀ x, x ∈ st.1 → x ∈ st.2) :
    ∀ x, x ∈ (pollInstanceStep cfg st rec).1 → x ∈ (pollInstanceStep cfg st rec).2 := by
  cases hk : recordKey cfg rec with
  | none => simpa [pollInstanceStep, hk] using hsub
  | some j =>
    by_cases h1 : j ∈ st.1
    · simp only [pollInstanceStep, hk, if_pos h1]
      intro x hx
      rw [mem_filter_ne] at hx
      exact hsub x hx.1
    · by_cases h2 : j ∈ st.2
      · simp only [pollInstanceStep, hk, if_neg h1, if_pos h2]
        exact hsub
      · simp only [pollInstanceStep, hk, if_neg h1, if_neg h2]
        intro x hx
        exact List.mem_append.mpr (Or.inl (hsub x hx))

theorem pollInstanceStep_mem (cfg : InstanceConfig) (st : List String × List String)
    (rec : IRecord) (k : String) (hsub : ∀ x, x ∈ st.1 → x ∈ st.2) :
    (k ∈ (pollInstanceStep cfg st rec).2 ∧ k ∉ (pollInstanceStep cfg st rec).1) ↔
      ((k ∈ st.2 ∧ k ∉ st.1) ∨ recordKey cfg rec = some k) := by
  cases hk : recordKey cfg rec with
  | none =>
    simp only [pollInstanceStep, hk]
    simp
  | some j =>
    by_cases h1 : j ∈ st.1
    · simp only [pollInstanceStep, hk, if_pos h1]
      rw [mem_filter_ne]
      have hjs : j ∈ st.2 := hsub j h1
      constructor
      · rintro ⟨h2, h3⟩
        by_cases hjk : j = k
        · exact Or.inr (congrArg some hjk)
        · exact Or.inl ⟨h2, fun hm => h3 ⟨hm, fun he => hjk he.symm⟩⟩
      · rintro (⟨h2, h3⟩ | he)
        · exact ⟨h2, fun hc => h3 hc.1⟩
        · injection he with he
          subst he
          exact ⟨hjs, fun hc => hc.2 rfl⟩
    · by_cases h2 : j ∈ st.2
      · simp only [pollInstanceStep, hk, if_neg h1, if_pos h2]
        constructor
        · exact Or.inl
        · rintro (h | he)
          · exact h
          · injection he with he
            subst he
            exact ⟨h2, h1⟩
      · simp only [pollInstanceStep, hk, if_neg h1, if_neg h2]
        rw [List.mem_append, List.mem_singleton]
        constructor
        · rintro ⟨h3 | h3, h4⟩
          · exact Or.inl ⟨h3, h4⟩
          · exact Or.inr (congrArg some h3.symm)
        · rintro (⟨h3, h4⟩ | he)
          · exact ⟨Or.inl h3, h4⟩
          · injection he with he
            subst he
            exact ⟨Or.inr rfl, h1⟩

theorem pollInstanceFold_mem (cfg : InstanceConfig) (records : List IRecord) :
    ∀ st : List String × List String, (∀ x, x ∈ st.1 → x ∈ st.2) → ∀ k,
      ((k ∈ (records.foldl (pollInstanceStep cfg) st).2 ∧
          k ∉ (records.foldl (pollInstanceStep cfg) st).1) ↔
        ((k ∈ st.2 ∧ k ∉ st.1) ∨ k ∈ parsedInstanceKeys cfg records)) := by
  induction records with
  | nil =>
    intro st hsub k
    simp [parsedInstanceKeys]
  | cons rec rest ih =>
    intro st hsub k
    rw [List.foldl_cons,
      ih (pollInstanceStep cfg st rec) (pollInstanceStep_subset cfg st rec hsub) k,
      pollInstanceStep_mem cfg st rec k hsub]
    simp only [parsedInstanceKeys, List.filterMap_cons]
    cases hk : recordKey cfg rec with
    | none => simp [hk]
    | some j =>
      simp only [hk, List.mem_cons, Option.some.injEq]
      constructor
      · rintro ((h | he) | h)
        · exact Or.inl h
        · exact Or.inr (Or.inl he.symm)
        · exact Or.inr (Or.inr h)
      · rintro (h | (he | h))
        · exact Or.inl (Or.inl h)
        · exact Or.inl (Or.inr he.symm)
        · exact Or.inr h

/-- C5: after a `pollInstance` pass over a non-empty response, the matrix's
set of instance keys equals exactly the set of instance keys parsed from
that response — every parsed key is present and every stale key has been
removed. -/
theorem pollInstance_key_set (cfg : InstanceConfig) (records : List IRecord)
    (matKeys : List String) (k : String) (hne : records ≠ []) :
    k ∈ pollInstanceKeys cfg records matKeys ↔ k ∈ parsedInstanceKeys cfg records := by
  unfold pollInstanceKeys
  have h := pollInstanceFold_mem cfg records (matKeys, matKeys) (fun x hx => hx) k
  simp only [List.mem_filter, decide_eq_true_eq]
  rw [h]
  constructor
  · rintro (⟨h1, h2⟩ | h1)
    · exact absurd h1 h2
    · exact h1
  · exact Or.inr

/-- C5 witness: one-record response creating key `A` on a matrix holding a
stale key. -/
theorem pollInstance_key_set_witness :
    "A" ∈ pollInstanceKeys ⟨false, false, false, ["id"]⟩
        [⟨true, "", [], [("id", "A")]⟩] ["stale"]
      ↔ "A" ∈ parsedInstanceKeys ⟨false, false, false, ["id"]⟩
        [⟨true, "", [], [("id", "A")]⟩] :=
  pollInstance_key_set ⟨false, false, false, ["id"]⟩
    [⟨true, "", [], [("id", "A")]⟩] ["stale"] "A" (by decide)

/-- C8: with constituent suppression enabled on a workload or
workload-detail object, a record whose `volume` matches the constituent
regular expression parses to no key, leaves the fold state unchanged
(neither adds nor refreshes an instance), and dropping it from the response
leaves the resulting instance-key set unchanged. -/
theorem constituent_suppression (cfg : InstanceConfig) (rec : IRecord)
    (hW : cfg.isWorkload = true ∨ cfg.isDetail = true)
    (hd : cfg.disableConstituents = true)
    (hm : constituentMatch rec.volume = true) :
    recordKey cfg rec = none ∧
    (∀ st, pollInstanceStep cfg st rec = st) ∧
    (∀ pre post matKeys,
      pollInstanceKeys cfg (pre ++ rec :: post) matKeys
        = pollInstanceKeys cfg (pre ++ post) matKeys) := by
  have hk : recordKey cfg rec = none := by
    unfold recordKey
    cases ho : rec.isObject
    · simp
    · have hw : (cfg.isWorkload || cfg.isDetail) = true := by
        rcases hW with h | h <;> simp [h]
      simp [hw, hd, hm]
  have hstep : ∀ st, pollInstanceStep cfg st rec = st := by
    intro st
    unfold pollInstanceStep
    rw [hk]
  refine ⟨hk, hstep, ?_⟩
  intro pre post matKeys
  unfold pollInstanceKeys
  rw [List.foldl_append, List.foldl_cons, hstep, ← List.foldl_append]

/-- C8 witness: the suppression theorem applied to the constituent record
`vol__0001` under an enabled workload configuration. -/
theorem constituent_suppression_witness :
    recordKey ⟨true, false, true, []⟩ ⟨true, "vol__0001", [("uuid", "u1")], []⟩ = none ∧
    pollInstanceKeys ⟨true, false, true, []⟩
        [⟨true, "vol__0001", [("uuid", "u1")], []⟩] ["w1"]
      = pollInstanceKeys ⟨true, false, true, []⟩ [] ["w1"] := by
  have h := constituent_suppression ⟨true, false, true, []⟩
    ⟨true, "vol__0001", [("uuid", "u1")], []⟩ (Or.inl rfl) rfl (by decide)
  exact ⟨h.1, h.2.2 [] [] ["w1"]⟩

/-! ## Lemmas for claim C3 -/

theorem nodup_keysA_insertA {α : Type} (l : List (String × α)) (k : String) (v : α)
    (h : (keysA l).Nodup) : (keysA (insertA l k v)).Nodup := by
  show (keysA ((k, v) :: eraseA l k)).Nodup
  rw [keysA_cons, List.nodup_cons]
  refine ⟨fun hm => ((mem_keysA_eraseA l k k).mp hm).1 rfl, ?_⟩
  rw [keysA_eraseA]
  exact h.filter _

theorem setExportableFalse_ne (l : List (String × MetricDef)) (k n : String)
    (h : n ≠ k) : lookupA (setExportableFalse l k) n = lookupA l n := by
  unfold setExportableFalse
  cases lookupA l k with
  | none => rfl
  | some md => exact lookupA_insertA_ne _ _ _ _ h

theorem mem_keysA_setExportableFalse (l : List (String × MetricDef)) (k n : String)
    (h : n ∈ keysA l) : n ∈ keysA (setExportableFalse l k) := by
  unfold setExportableFalse
  cases lookupA l k with
  | none => exact h
  | some md => exact (mem_keysA_insertA _ _ _ _).mpr (Or.inr h)

theorem nodup_setExportableFalse (l : List (String × MetricDef)) (k : String)
    (h : (keysA l).Nodup) : (keysA (setExportableFalse l k)).Nodup := by
  unfold setExportableFalse
  cases lookupA l k with
  | none => exact h
  | some md => exact nodup_keysA_insertA _ _ _ h

theorem denomPI_pm_preserved (isDetail : Bool) (ov ctbl : List (String × String))
    (pm : List (String × MetricDef)) (il : List (String × String)) (c : SchemaCounter)
    (n : String) (md : MetricDef) (h : lookupA pm n = some md)
    (hcond : n ≠ c.name ∨ containsSub (effType ov c) "string" = false) :
    lookupA (pollCounterDenomPI isDetail ov ctbl pm il c).1 n = some md := by
  unfold pollCounterDenomPI
  cases hc : lookupA pm c.name with
  | none => exact h
  | some md0 =>
    by_cases hstr : containsSub (effType ov c) "string" = true
    · rw [if_pos hstr]
      rcases hcond with hne | hfalse
      · rw [setExportableFalse_ne _ _ _ hne]
        exact h
      · rw [hstr] at hfalse
        cases hfalse
    · rw [if_neg hstr]
      by_cases hden : c.denominator ≠ "" ∧ lookupA pm c.denominator = none
      · rw [if_pos hden]
        by_cases hv : isDetail ∧ c.denominator = "visits"
        · rw [if_pos hv]
          exact h
        · rw [if_neg hv]
          have hnd : n ≠ c.denominator := by
            intro he
            rw [← he, h] at hden
            cases hden.2
          exact (lookupA_insertA_ne _ _ _ _ hnd).trans h
      · rw [if_neg hden]
        exact h

theorem denomPI_pm_mem (isDetail : Bool) (ov ctbl : List (String × String))
    (pm : List (String × MetricDef)) (il : List (String × String)) (c : SchemaCounter)
    (n : String) (h : n ∈ keysA pm) :
    n ∈ keysA (pollCounterDenomPI isDetail ov ctbl pm il c).1 := by
  unfold pollCounterDenomPI
  cases lookupA pm c.name with
  | none => exact h
  | some md0 =>
    by_cases hstr : containsSub (effType ov c) "string" = true
    · rw [if_pos hstr]
      exact mem_keysA_setExportableFalse _ _ _ h
    · rw [if_neg hstr]
      by_cases hden : c.denominator ≠ "" ∧ lookupA pm c.denominator = none
      · rw [if_pos hden]
        by_cases hv : isDetail ∧ c.denominator = "visits"
        · rw [if_pos hv]; exact h
        · rw [if_neg hv]
          exact (mem_keysA_insertA _ _ _ _).mpr (Or.inr h)
      · rw [if_neg hden]
        exact h

theorem denomPI_pm_nodup (isDetail : Bool) (ov ctbl : List (String × String))
    (pm : List (String × MetricDef)) (il : List (String × String)) (c : SchemaCounter)
    (h : (keysA pm).Nodup) :
    (keysA (pollCounterDenomPI isDetail ov ctbl pm il c).1).Nodup := by
  unfold pollCounterDenomPI
  cases lookupA pm c.name with
  | none => exact h
  | some md0 =>
    by_cases hstr : containsSub (effType ov c) "string" = true
    · rw [if_pos hstr]
      exact nodup_setExportableFalse _ _ h
    · rw [if_neg hstr]
      by_cases hden : c.denominator ≠ "" ∧ lookupA pm c.denominator = none
      · rw [if_pos hden]
        by_cases hv : isDetail ∧ c.denominator = "visits"
        · rw [if_pos hv]; exact h
        · rw [if_neg hv]
          exact nodup_keysA_insertA _ _ _ h
      · rw [if_neg hden]
        exact h

theorem restore_archived_self_none (st : CounterState) (c : SchemaCounter) :
    lookupA (pollCounterRestore st c).archived c.name = none := by
  unfold pollCounterRestore
  cases h : lookupA st.archived c.name with
  | none => exact h
  | some am => exact lookupA_eraseA_self _ _

theorem restore_archived_ne (st : CounterState) (c : SchemaCounter) (n : String)
    (h : n ≠ c.name) :
    lookupA (pollCounterRestore st c).archived n = lookupA st.archived n := by
  unfold pollCounterRestore
  cases lookupA st.archived c.name with
  | none => rfl
  | some am => exact lookupA_eraseA_ne _ _ _ h

theorem restore_archived_none_preserved (st : CounterState) (c : SchemaCounter) (n : String)
    (h : lookupA st.archived n = none) :
    lookupA (pollCounterRestore st c).archived n = none := by
  by_cases hn : n = c.name
  · rw [hn]
    exact restore_archived_self_none st c
  · rw [restore_archived_ne st c n hn]
    exact h

theorem restore_archived_keys_subset (st : CounterState) (c : SchemaCounter) (n : String)
    (h : n ∈ keysA (pollCounterRestore st c).archived) : n ∈ keysA st.archived := by
  unfold pollCounterRestore at h
  cases hl : lookupA st.archived c.name with
  | none => rw [hl] at h; exact h
  | some am =>
    rw [hl] at h
    exact ((mem_keysA_eraseA _ _ _).mp h).2

theorem restore_pm_ne (st : CounterState) (c : SchemaCounter) (n : String)
    (h : n ≠ c.name) :
    lookupA (pollCounterRestore st c).propMetrics n = lookupA st.propMetrics n := by
  unfold pollCounterRestore
  cases lookupA st.archived c.name with
  | none => rfl
  | some am => exact lookupA_insertA_ne _ _ _ _ h

theorem restore_pm_mem (st : CounterState) (c : SchemaCounter) (n : String)
    (h : n ∈ keysA st.propMetrics) :
    n ∈ keysA (pollCounterRestore st c).propMetrics := by
  unfold pollCounterRestore
  cases lookupA st.archived c.name with
  | none => exact h
  | some am => exact (mem_keysA_insertA _ _ _ _).mpr (Or.inr h)

theorem restore_pm_nodup (st : CounterState) (c : SchemaCounter)
    (h : (keysA st.propMetrics).Nodup) :
    (keysA (pollCounterRestore st c).propMetrics).Nodup := by
  unfold pollCounterRestore
  cases lookupA st.archived c.name with
  | none => exact h
  | some am => exact nodup_keysA_insertA _ _ _ h

theorem restore_union (st : CounterState) (c : SchemaCounter) (n : String)
    (h : n ∈ keysA st.propMetrics ∨ n ∈ keysA st.archived) :
    n ∈ keysA (pollCounterRestore st c).propMetrics ∨
      n ∈ keysA (pollCounterRestore st c).archived := by
  unfold pollCounterRestore
  cases hl : lookupA st.archived c.name with
  | none => exact h
  | some am =>
    rcases h with h | h
    · exact Or.inl ((mem_keysA_insertA _ _ _ _).mpr (Or.inr h))
    · by_cases hn : n = c.name
      · exact Or.inl ((mem_keysA_insertA _ _ _ _).mpr (Or.inl hn))
      · exact Or.inr ((mem_keysA_eraseA _ _ _).mpr ⟨hn, h⟩)

theorem phase1Step_obj (isDetail : Bool) (ov ctbl : List (String × String))
    (st : CounterState) (c : SchemaCounter) (h : c.isObject = true) :
    pollCounterPhase1Step isDetail ov ctbl st c
      = pollCounterDenom isDetail ov ctbl (pollCounterRestore st c) c := by
  simp [pollCounterPhase1Step, h]

theorem phase1Step_nonobj (isDetail : Bool) (ov ctbl : List (String × String))
    (st : CounterState) (c : SchemaCounter) (h : c.isObject = false) :
    pollCounterPhase1Step isDetail ov ctbl st c = st := by
  simp [pollCounterPhase1Step, h]

theorem pollCounterDenom_archived (isDetail : Bool) (ov ctbl : List (String × String))
    (st1 : CounterState) (c : SchemaCounter) :
    (pollCounterDenom isDetail ov ctbl st1 c).archived = st1.archived := rfl

theorem pollCounterDenom_pm (isDetail : Bool) (ov ctbl : List (String × String))
    (st1 : CounterState) (c : SchemaCounter) :
    (pollCounterDenom isDetail ov ctbl st1 c).propMetrics
      = (pollCounterDenomPI isDetail ov ctbl st1.propMetrics st1.instanceLabels c).1 := rfl

theorem phase1Step_archived_subset (isDetail : Bool) (ov ctbl : List (String × String))
    (st : CounterState) (c : SchemaCounter) (n : String)
    (h : n ∈ keysA (pollCounterPhase1Step isDetail ov ctbl st c).archived) :
    n ∈ keysA st.archived := by
  cases ho : c.isObject
  · rwa [phase1Step_nonobj _ _ _ _ _ ho] at h
  · rw [phase1Step_obj _ _ _ _ _ ho, pollCounterDenom_archived] at h
    exact restore_archived_keys_subset st c n h

theorem phase1Step_obj_name_not_archived (isDetail : Bool) (ov ctbl : List (String × String))
    (st : CounterState) (c : SchemaCounter) (h : c.isObject = true) :
    c.name ∉ keysA (pollCounterPhase1Step isDetail ov ctbl st c).archived := by
  rw [phase1Step_obj _ _ _ _ _ h, pollCounterDenom_archived]
  intro hm
  have hs := (lookupA_isSome_iff_mem_keysA _ _).mpr hm
  rw [restore_archived_self_none] at hs
  simp at hs

theorem phase1Step_archived_none (isDetail : Bool) (ov ctbl : List (String × String))
    (st : CounterState) (c : SchemaCounter) (n : String)
    (h : lookupA st.archived n = none) :
    lookupA (pollCounterPhase1Step isDetail ov ctbl st c).archived n = none := by
  cases ho : c.isObject
  · rwa [phase1Step_nonobj _ _ _ _ _ ho]
  · rw [phase1Step_obj _ _ _ _ _ ho, pollCounterDenom_archived]
    exact restore_archived_none_preserved st c n h

theorem phase1Step_archived_value (isDetail : Bool) (ov ctbl : List (String × String))
    (st : CounterState) (c : SchemaCounter) (n : String)
    (h : ¬(c.isObject = true ∧ c.name = n)) :
    lookupA (pollCounterPhase1Step isDetail ov ctbl st c).archived n
      = lookupA st.archived n := by
  cases ho : c.isObject
  · rw [phase1Step_nonobj _ _ _ _ _ ho]
  · rw [phase1Step_obj _ _ _ _ _ ho, pollCounterDenom_archived]
    exact restore_archived_ne st c n (fun he => h ⟨ho, he.symm⟩)

theorem phase1Step_pm_value (isDetail : Bool) (ov ctbl : List (String × String))
    (st : CounterState) (c : SchemaCounter) (n : String) (md : MetricDef)
    (hmd : lookupA st.propMetrics n = some md)
    (h : ¬(c.isObject = true ∧ c.name = n)) :
    lookupA (pollCounterPhase1Step isDetail ov ctbl st c).propMetrics n = some md := by
  cases ho : c.isObject
  · rwa [phase1Step_nonobj _ _ _ _ _ ho]
  · rw [phase1Step_obj _ _ _ _ _ ho, pollCounterDenom_pm]
    have hne : n ≠ c.name := fun he => h ⟨ho, he.symm⟩
    refine denomPI_pm_preserved _ _ _ _ _ _ _ _ ?_ (Or.inl hne)
    rw [restore_pm_ne st c n hne]
    exact hmd

theorem phase1Step_pm_mem (isDetail : Bool) (ov ctbl : List (String × String))
    (st : CounterState) (c : SchemaCounter) (n : String)
    (h : n ∈ keysA st.propMetrics) :
    n ∈ keysA (pollCounterPhase1Step isDetail ov ctbl st c).propMetrics := by
  cases ho : c.isObject
  · rwa [phase1Step_nonobj _ _ _ _ _ ho]
  · rw [phase1Step_obj _ _ _ _ _ ho, pollCounterDenom_pm]
    exact denomPI_pm_mem _ _ _ _ _ _ _ (restore_pm_mem st c n h)

theorem phase1Step_pm_nodup (isDetail : Bool) (ov ctbl : List (String × String))
    (st : CounterState) (c : SchemaCounter)
    (h : (keysA st.propMetrics).Nodup) :
    (keysA (pollCounterPhase1Step isDetail ov ctbl st c).propMetrics).Nodup := by
  cases ho : c.isObject
  · rwa [phase1Step_nonobj _ _ _ _ _ ho]
  · rw [phase1Step_obj _ _ _ _ _ ho, pollCounterDenom_pm]
    exact denomPI_pm_nodup _ _ _ _ _ _ (restore_pm_nodup st c h)

theorem phase1Step_union (isDetail : Bool) (ov ctbl : List (String × String))
    (st : CounterState) (c : SchemaCounter) (n : String)
    (h : n ∈ keysA st.propMetrics ∨ n ∈ keysA st.archived) :
    n ∈ keysA (pollCounterPhase1Step isDetail ov ctbl st c).propMetrics ∨
      n ∈ keysA (pollCounterPhase1Step isDetail ov ctbl st c).archived := by
  cases ho : c.isObject
  · rwa [phase1Step_nonobj _ _ _ _ _ ho]
  · rw [phase1Step_obj _ _ _ _ _ ho, pollCounterDenom_pm, pollCounterDenom_archived]
    rcases restore_union st c n h with h1 | h1
    · exact Or.inl (denomPI_pm_mem _ _ _ _ _ _ _ h1)
    · exact Or.inr h1

theorem phase1Fold_archived_subset (isDetail : Bool) (ov ctbl : List (String × String))
    (schema : List SchemaCounter) :
    ∀ (st : CounterState) (n : String),
      n ∈ keysA ((schema.foldl (pollCounterPhase1Step isDetail ov ctbl) st)).archived →
      n ∈ keysA st.archived := by
  induction schema with
  | nil => exact fun st n h => h
  | cons c rest ih =>
    intro st n h
    rw [List.foldl_cons] at h
    exact phase1Step_archived_subset _ _ _ _ _ _ (ih _ n h)

theorem phase1Fold_obj_not_archived (isDetail : Bool) (ov ctbl : List (String × String))
    (schema : List SchemaCounter) :
    ∀ (st : CounterState) (c : SchemaCounter), c ∈ schema → c.isObject = true →
      c.name ∉ keysA ((schema.foldl (pollCounterPhase1Step isDetail ov ctbl) st)).archived := by
  induction schema with
  | nil => simp
  | cons c0 rest ih =>
    intro st c hc ho
    rw [List.foldl_cons]
    rcases List.mem_cons.mp hc with rfl | hc'
    · intro hm
      exact phase1Step_obj_name_not_archived isDetail ov ctbl st c ho
        (phase1Fold_archived_subset isDetail ov ctbl rest _ _ hm)
    · exact ih _ c hc' ho

theorem phase1Fold_archived_none (isDetail : Bool) (ov ctbl : List (String × String))
    (schema : List SchemaCounter) :
    ∀ (st : CounterState) (n : String), lookupA st.archived n = none →
      lookupA ((schema.foldl (pollCounterPhase1Step isDetail ov ctbl) st)).archived n
        = none := by
  induction schema with
  | nil => exact fun st n h => h
  | cons c rest ih =>
    intro st n h
    rw [List.foldl_cons]
    exact ih _ n (phase1Step_archived_none _ _ _ _ _ _ h)

theorem phase1Fold_archived_value (isDetail : Bool) (ov ctbl : List (String × String))
    (schema : List SchemaCounter) :
    ∀ (st : CounterState) (n : String),
      (∀ c ∈ schema, ¬(c.isObject = true ∧ c.name = n)) →
      lookupA ((schema.foldl (pollCounterPhase1Step isDetail ov ctbl) st)).archived n
        = lookupA st.archived n := by
  induction schema with
  | nil => exact fun st n _ => rfl
  | cons c rest ih =>
    intro st n h
    rw [List.foldl_cons, ih _ n (fun c' hc' => h c' (List.mem_cons_of_mem _ hc'))]
    exact phase1Step_archived_value _ _ _ _ _ _ (h c (List.mem_cons_self _ _))

theorem phase1Fold_pm_value (isDetail : Bool) (ov ctbl : List (String × String))
    (schema : List SchemaCounter) :
    ∀ (st : CounterState) (n : String) (md : MetricDef),
      lookupA st.propMetrics n = some md →
      (∀ c ∈ schema, ¬(c.isObject = true ∧ c.name = n)) →
      lookupA ((schema.foldl (pollCounterPhase1Step isDetail ov ctbl) st)).propMetrics n
        = some md := by
  induction schema with
  | nil => exact fun st n md h _ => h
  | cons c rest ih =>
    intro st n md h hno
    rw [List.foldl_cons]
    exact ih _ n md
      (phase1Step_pm_value _ _ _ _ _ _ _ h (hno c (List.mem_cons_self _ _)))
      (fun c' hc' => hno c' (List.mem_cons_of_mem _ hc'))

theorem phase1Fold_pm_nodup (isDetail : Bool) (ov ctbl : List (String × String))
    (schema : List SchemaCounter) :
    ∀ st : CounterState, (keysA st.propMetrics).Nodup →
      (keysA ((schema.foldl (pollCounterPhase1Step isDetail ov ctbl) st)).propMetrics).Nodup := by
  induction schema with
  | nil => exact fun st h => h
  | cons c rest ih =>
    intro st h
    rw [List.foldl_cons]
    exact ih _ (phase1Step_pm_nodup _ _ _ _ _ h)

theorem phase1Fold_union (isDetail : Bool) (ov ctbl : List (String × String))
    (schema : List SchemaCounter) :
    ∀ (st : CounterState) (n : String),
      n ∈ keysA st.propMetrics ∨ n ∈ keysA st.archived →
      n ∈ keysA ((schema.foldl (pollCounterPhase1Step isDetail ov ctbl) st)).propMetrics ∨
      n ∈ keysA ((schema.foldl (pollCounterPhase1Step isDetail ov ctbl) st)).archived := by
  induction schema with
  | nil => exact fun st n h => h
  | cons c rest ih =>
    intro st n h
    rw [List.foldl_cons]
    exact ih _ n (phase1Step_union _ _ _ _ _ _ h)

theorem mem_schemaObjectNames (schema : List SchemaCounter) (k : String) :
    k ∈ schemaObjectNames schema ↔ ∃ c ∈ schema, c.isObject = true ∧ c.name = k := by
  simp only [schemaObjectNames, List.mem_map, List.mem_filter]
  constructor
  · rintro ⟨c, ⟨hc, hco⟩, hk⟩
    exact ⟨c, hc, hco, hk⟩
  · rintro ⟨c, hc, hco, hk⟩
    exact ⟨c, ⟨hc, hco⟩, hk⟩

theorem phase2Step_seen_mono (ov : List (String × String))
    (pm : List (String × MetricDef)) (acc : List String × List (String × Counter))
    (c : SchemaCounter) (k : String) (h : k ∈ acc.1) :
    k ∈ (pollCounterPhase2Step ov pm acc c).1 := by
  unfold pollCounterPhase2Step
  cases ho : c.isObject
  · simpa [ho] using h
  · simp only [ho, Bool.not_true, Bool.false_eq_true, if_false]
    by_cases hp : (lookupA pm c.name).isSome
    · rw [if_pos hp]
      by_cases hm : c.name ∈ acc.1
      · simpa [hm] using h
      · simp only [hm, if_false]
        exact List.mem_append_left _ h
    · rw [if_neg hp]
      exact h

theorem phase2Step_seen_cases (ov : List (String × String))
    (pm : List (String × MetricDef)) (acc : List String × List (String × Counter))
    (c : SchemaCounter) (k : String) (h : k ∈ (pollCounterPhase2Step ov pm acc c).1) :
    k ∈ acc.1 ∨ (c.isObject = true ∧ k = c.name) := by
  unfold pollCounterPhase2Step at h
  cases ho : c.isObject
  · rw [ho] at h
    simp only [Bool.not_false, if_true] at h
    exact Or.inl h
  · rw [ho] at h
    simp only [Bool.not_true, Bool.false_eq_true, if_false] at h
    by_cases hp : (lookupA pm c.name).isSome
    · rw [if_pos hp] at h
      by_cases hm : c.name ∈ acc.1
      · rw [if_pos hm] at h
        exact Or.inl h
      · rw [if_neg hm] at h
        rcases List.mem_append.mp h with h1 | h1
        · exact Or.inl h1
        · exact Or.inr ⟨rfl, List.mem_singleton.mp h1⟩
    · rw [if_neg hp] at h
      exact Or.inl h

theorem phase2Fold_seen_mono (ov : List (String × String))
    (pm : List (String × MetricDef)) (schema : List SchemaCounter) :
    ∀ (acc : List String × List (String × Counter)) (k : String), k ∈ acc.1 →
      k ∈ (schema.foldl (pollCounterPhase2Step ov pm) acc).1 := by
  induction schema with
  | nil => exact fun acc k h => h
  | cons c rest ih =>
    intro acc k h
    rw [List.foldl_cons]
    exact ih _ k (phase2Step_seen_mono ov pm acc c k h)

theorem phase2Fold_seen_subset (ov : List (String × String))
    (pm : List (String × MetricDef)) (schema : List SchemaCounter) :
    ∀ (acc : List String × List (String × Counter)) (k : String),
      k ∈ (schema.foldl (pollCounterPhase2Step ov pm) acc).1 →
      k ∈ acc.1 ∨ k ∈ schemaObjectNames schema := by
  induction schema with
  | nil => exact fun acc k h => Or.inl h
  | cons c rest ih =>
    intro acc k h
    rw [List.foldl_cons] at h
    rcases ih _ k h with h1 | h1
    · rcases phase2Step_seen_cases ov pm acc c k h1 with h2 | h2
      · exact Or.inl h2
      · exact Or.inr ((mem_schemaObjectNames _ _).mpr ⟨c, List.mem_cons_self _ _, h2.1, h2.2.symm⟩)
    · refine Or.inr ((mem_schemaObjectNames _ _).mpr ?_)
      obtain ⟨c', hc', ho', hn'⟩ := (mem_schemaObjectNames _ _).mp h1
      exact ⟨c', List.mem_cons_of_mem _ hc', ho', hn'⟩

theorem phase2Fold_seen_of_mem (ov : List (String × String))
    (pm : List (String × MetricDef)) (schema : List SchemaCounter) :
    ∀ (acc : List String × List (String × Counter)) (c : SchemaCounter),
      c ∈ schema → c.isObject = true → (lookupA pm c.name).isSome →
      c.name ∈ (schema.foldl (pollCounterPhase2Step ov pm) acc).1 := by
  induction schema with
  | nil => simp
  | cons c0 rest ih =>
    intro acc c hc ho hp
    rw [List.foldl_cons]
    rcases List.mem_cons.mp hc with rfl | hc'
    · refine phase2Fold_seen_mono ov pm rest _ _ ?_
      unfold pollCounterPhase2Step
      rw [ho]
      simp only [Bool.not_true, Bool.false_eq_true, if_false, if_pos hp]
      by_cases hm : c.name ∈ acc.1
      · simpa [hm] using hm
      · simp only [hm, if_false]
        exact List.mem_append_right _ (List.mem_singleton.mpr rfl)
    · exact ih _ c hc' ho hp

theorem lookupA_filter_of_true {α : Type} (l : List (String × α)) (p : String × α → Bool)
    (k : String) (v : α) (hnd : (keysA l).Nodup) (h : lookupA l k = some v)
    (hp : p (k, v) = true) : lookupA (l.filter p) k = some v := by
  refine lookupA_eq_some_of_mem_nodup ?_ (List.mem_filter.mpr ⟨mem_of_lookupA_eq_some h, hp⟩)
  exact List.Nodup.sublist (List.Sublist.map _ (List.filter_sublist _)) hnd

theorem lookupA_filter_none {α : Type} (l : List (String × α)) (p : String × α → Bool)
    (k : String) (h : ∀ v, (k, v) ∈ l → p (k, v) = false) :
    lookupA (l.filter p) k = none := by
  induction l with
  | nil => rfl
  | cons q rest ih =>
    obtain ⟨a, b⟩ := q
    rw [List.filter_cons]
    by_cases hpq : p (a, b) = true
    · rw [if_pos (by rw [hpq])]
      rw [lookupA_cons]
      have hak : a ≠ k := by
        intro he
        subst he
        rw [h b (List.mem_cons_self _ _)] at hpq
        cases hpq
      rw [if_neg hak]
      exact ih (fun v hv => h v (List.mem_cons_of_mem _ hv))
    · rw [if_neg (by simpa using hpq)]
      exact ih (fun v hv => h v (List.mem_cons_of_mem _ hv))

theorem foldlInsert_preserved {α : Type} (L : List (String × α)) :
    ∀ (a0 : List (String × α)) (k : String), (∀ p ∈ L, p.1 ≠ k) →
      lookupA (L.foldl (fun a p => insertA a p.1 p.2) a0) k = lookupA a0 k := by
  induction L with
  | nil => exact fun a0 k _ => rfl
  | cons q rest ih =>
    intro a0 k h
    rw [List.foldl_cons, ih _ k (fun p hp => h p (List.mem_cons_of_mem _ hp))]
    exact lookupA_insertA_ne _ _ _ _ (fun he => h q (List.mem_cons_self _ _) he.symm)

theorem foldlInsert_value {α : Type} (L : List (String × α)) :
    ∀ (a0 : List (String × α)) (k : String) (v : α), (keysA L).Nodup → (k, v) ∈ L →
      lookupA (L.foldl (fun a p => insertA a p.1 p.2) a0) k = some v := by
  induction L with
  | nil => simp
  | cons q rest ih =>
    intro a0 k v hnd hm
    obtain ⟨a, b⟩ := q
    rw [keysA_cons, List.nodup_cons] at hnd
    rw [List.foldl_cons]
    rcases List.mem_cons.mp hm with he | hm'
    · injection he with h1 h2
      subst h1
      subst h2
      rw [foldlInsert_preserved rest _ k
        (fun p hp hpk => hnd.1 (hpk ▸ List.mem_map_of_mem Prod.fst hp))]
      exact lookupA_insertA_self _ _ _
    · exact ih _ k v hnd.2 hm'

theorem mem_keysA_foldlInsert {α : Type} (L : List (String × α)) :
    ∀ (a0 : List (String × α)) (k : String),
      k ∈ keysA (L.foldl (fun a p => insertA a p.1 p.2) a0) ↔
        k ∈ keysA a0 ∨ k ∈ keysA L := by
  induction L with
  | nil => simp
  | cons q rest ih =>
    intro a0 k
    obtain ⟨a, b⟩ := q
    rw [List.foldl_cons, ih, mem_keysA_insertA, keysA_cons, List.mem_cons]
    tauto

theorem mem_keysA_filter {α : Type} (l : List (String × α)) (p : String × α → Bool)
    (k : String) :
    k ∈ keysA (l.filter p) ↔ ∃ v, (k, v) ∈ l ∧ p (k, v) = true := by
  simp only [keysA, List.mem_map, List.mem_filter]
  constructor
  · rintro ⟨q, ⟨hq, hpq⟩, hk⟩
    subst hk
    exact ⟨q.2, hq, hpq⟩
  · rintro ⟨v, hv, hpv⟩
    exact ⟨(k, v), ⟨hv, hpv⟩, rfl⟩

theorem exists_entry_of_mem_keysA {α : Type} (l : List (String × α)) (k : String)
    (h : k ∈ keysA l) : ∃ v, (k, v) ∈ l := by
  simp only [keysA, List.mem_map] at h
  obtain ⟨p, hp, hk⟩ := h
  subst hk
  exact ⟨p.2, hp⟩

/-- C3 (counterexample): the claim says a counter reappearing in the schema
is restored with its prior `Exportable` intact.  An archived metric with
`Exportable = true` whose schema entry carries a string type is restored and
then forced to `Exportable = false` (restperf.go line 331). -/
theorem pollCounter_restore_string_counterexample :
    (lookupA (pollCounterModel false [] []
        [⟨"m1", "string", "", "", "", true⟩]
        ⟨[], [], [("m1", ⟨"m1", "M1", "float", true⟩)], []⟩).propMetrics "m1").map
      MetricDef.exportable = some false ∧
    ¬((lookupA (pollCounterModel false [] []
        [⟨"m1", "string", "", "", "", true⟩]
        ⟨[], [], [("m1", ⟨"m1", "M1", "float", true⟩)], []⟩).propMetrics "m1").map
      MetricDef.exportable = some true) := by
  decide

/-- C3 (amended): after every `pollCounter` (a) the active and archived
metric key sets are disjoint, (b) their union never loses a
previously-declared metric, (c) every active metric absent from the current
schema is moved to the archive with its definition and removed from the
active set, and (d) a schema counter present in the archive is restored into
the active set with its prior Label and Exportable intact and deleted from
the archive, PROVIDED its schema type (after the template override) does not
contain "string" — a string-typed reappearing counter is restored but its
Exportable is forced to false. -/
theorem pollCounter_archive_invariants
    (isDetail : Bool) (ov ctbl : List (String × String)) (schema : List SchemaCounter)
    (st : CounterState) (n : String) (md : MetricDef)
    (hnd : (keysA st.propMetrics).Nodup) :
    (∀ k, ¬(k ∈ keysA (pollCounterModel isDetail ov ctbl schema st).propMetrics ∧
            k ∈ keysA (pollCounterModel isDetail ov ctbl schema st).archived)) ∧
    (∀ k, k ∈ keysA st.propMetrics ∨ k ∈ keysA st.archived →
      k ∈ keysA (pollCounterModel isDetail ov ctbl schema st).propMetrics ∨
      k ∈ keysA (pollCounterModel isDetail ov ctbl schema st).archived) ∧
    (lookupA st.propMetrics n = some md →
      (∀ c ∈ schema, c.isObject = true → c.name ≠ n) →
      lookupA (pollCounterModel isDetail ov ctbl schema st).propMetrics n = none ∧
      lookupA (pollCounterModel isDetail ov ctbl schema st).archived n = some md) ∧
    (∀ s1 sc0 s2, schema = s1 ++ sc0 :: s2 → sc0.isObject = true → sc0.name = n →
      lookupA st.archived n = some md →
      (∀ c ∈ s1, c.isObject = true → c.name ≠ n) →
      (∀ c ∈ s2, c.isObject = true → c.name ≠ n) →
      containsSub (effType ov sc0) "string" = false →
      lookupA (pollCounterModel isDetail ov ctbl schema st).propMetrics n = some md ∧
      lookupA (pollCounterModel isDetail ov ctbl schema st).archived n = none) := by
  set st1 := schema.foldl (pollCounterPhase1Step isDetail ov ctbl) st with hst1def
  set seenci := schema.foldl (pollCounterPhase2Step ov st1.propMetrics)
    ([], st1.counterInfo) with hscdef
  have hmodelPm : (pollCounterModel isDetail ov ctbl schema st).propMetrics
      = st1.propMetrics.filter (fun p => p.1 ∈ seenci.1) := rfl
  have hmodelAr : (pollCounterModel isDetail ov ctbl schema st).archived
      = (st1.propMetrics.filter (fun p => p.1 ∉ seenci.1)).foldl
          (fun a p => insertA a p.1 p.2) st1.archived := rfl
  have hnd1 : (keysA st1.propMetrics).Nodup := by
    rw [hst1def]
    exact phase1Fold_pm_nodup isDetail ov ctbl schema st hnd
  refine ⟨?_, ?_, ?_, ?_⟩
  · -- disjointness
    intro k hk
    obtain ⟨hp, ha⟩ := hk
    rw [hmodelPm] at hp
    rw [hmodelAr] at ha
    obtain ⟨v, hv, hpred⟩ := (mem_keysA_filter _ _ _).mp hp
    have hseen : k ∈ seenci.1 := by simpa using hpred
    rcases (mem_keysA_foldlInsert _ _ _).mp ha with h1 | h1
    · rcases phase2Fold_seen_subset ov st1.propMetrics schema _ k hseen with h2 | h2
      · simp at h2
      · obtain ⟨c, hc, hco, hcn⟩ := (mem_schemaObjectNames _ _).mp h2
        refine phase1Fold_obj_not_archived isDetail ov ctbl schema st c hc hco ?_
        rw [hcn, ← hst1def]
        exact h1
    · obtain ⟨v', hv', hpred'⟩ := (mem_keysA_filter _ _ _).mp h1
      have hns : k ∉ seenci.1 := by simpa using hpred'
      exact hns hseen
  · -- union monotonicity
    intro k hk
    have h1 : k ∈ keysA st1.propMetrics ∨ k ∈ keysA st1.archived := by
      rw [hst1def]
      exact phase1Fold_union isDetail ov ctbl schema st k hk
    rw [hmodelPm, hmodelAr]
    rcases h1 with h1 | h1
    · obtain ⟨v, hv⟩ := exists_entry_of_mem_keysA _ _ h1
      by_cases hseen : k ∈ seenci.1
      · exact Or.inl ((mem_keysA_filter _ _ _).mpr ⟨v, hv, by simpa using hseen⟩)
      · refine Or.inr ((mem_keysA_foldlInsert _ _ _).mpr (Or.inr ?_))
        exact (mem_keysA_filter _ _ _).mpr ⟨v, hv, by simpa using hseen⟩
    · exact Or.inr ((mem_keysA_foldlInsert _ _ _).mpr (Or.inl h1))
  · -- absent metrics are archived
    intro hmd hno
    have hpm1 : lookupA st1.propMetrics n = some md := by
      rw [hst1def]
      exact phase1Fold_pm_value isDetail ov ctbl schema st n md hmd
        (fun c hc hcc => hno c hc hcc.1 hcc.2)
    have hnseen : n ∉ seenci.1 := by
      intro hseen
      rcases phase2Fold_seen_subset ov st1.propMetrics schema _ n hseen with h2 | h2
      · simp at h2
      · obtain ⟨c, hc, hco, hcn⟩ := (mem_schemaObjectNames _ _).mp h2
        exact hno c hc hco hcn
    constructor
    · rw [hmodelPm]
      exact lookupA_filter_none _ _ _ (fun v _ => by simpa using hnseen)
    · rw [hmodelAr]
      have hmem : (n, md) ∈ st1.propMetrics.filter (fun p => p.1 ∉ seenci.1) :=
        List.mem_filter.mpr ⟨mem_of_lookupA_eq_some hpm1, by simpa using hnseen⟩
      refine foldlInsert_value _ _ _ _ ?_ hmem
      exact List.Nodup.sublist (List.Sublist.map _ (List.filter_sublist _)) hnd1
  · -- restore, non-string
    intro s1 sc0 s2 hsplit hobj hname ha h1 h2 hstr
    have hA : lookupA ((s1.foldl (pollCounterPhase1Step isDetail ov ctbl) st)).archived n
        = some md := by
      rw [phase1Fold_archived_value isDetail ov ctbl s1 st n
        (fun c hc hcc => h1 c hc hcc.1 hcc.2)]
      exact ha
    have hstep := phase1Step_obj isDetail ov ctbl
      (s1.foldl (pollCounterPhase1Step isDetail ov ctbl) st) sc0 hobj
    have hA2 : lookupA ((s1.foldl (pollCounterPhase1Step isDetail ov ctbl) st)).archived
        sc0.name = some md := by
      rw [hname]
      exact hA
    have hrpm : lookupA (pollCounterRestore
        (s1.foldl (pollCounterPhase1Step isDetail ov ctbl) st) sc0).propMetrics n
        = some md := by
      unfold pollCounterRestore
      rw [hA2, ← hname]
      exact lookupA_insertA_self _ _ _
    have hrar : lookupA (pollCounterRestore
        (s1.foldl (pollCounterPhase1Step isDetail ov ctbl) st) sc0).archived n = none := by
      rw [← hname]
      exact restore_archived_self_none _ sc0
    have hstep_pm : lookupA (pollCounterPhase1Step isDetail ov ctbl
        (s1.foldl (pollCounterPhase1Step isDetail ov ctbl) st) sc0).propMetrics n
        = some md := by
      rw [hstep, pollCounterDenom_pm]
      exact denomPI_pm_preserved _ _ _ _ _ _ _ _ hrpm (Or.inr hstr)
    have hstep_ar : lookupA (pollCounterPhase1Step isDetail ov ctbl
        (s1.foldl (pollCounterPhase1Step isDetail ov ctbl) st) sc0).archived n = none := by
      rw [hstep, pollCounterDenom_archived]
      exact hrar
    have hst1pm : lookupA st1.propMetrics n = some md := by
      rw [hst1def, hsplit, List.foldl_append, List.foldl_cons]
      exact phase1Fold_pm_value isDetail ov ctbl s2 _ n md hstep_pm
        (fun c hc hcc => h2 c hc hcc.1 hcc.2)
    have hst1ar : lookupA st1.archived n = none := by
      rw [hst1def, hsplit, List.foldl_append, List.foldl_cons]
      exact phase1Fold_archived_none isDetail ov ctbl s2 _ n hstep_ar
    have hseen : n ∈ seenci.1 := by
      rw [← hname, hscdef]
      refine phase2Fold_seen_of_mem ov st1.propMetrics schema _ sc0 ?_ hobj ?_
      · rw [hsplit]
        exact List.mem_append_right _ (List.mem_cons_self _ _)
      · rw [hname, hst1pm]
        rfl
    constructor
    · rw [hmodelPm]
      exact lookupA_filter_of_true _ _ _ _ hnd1 hst1pm (by simpa using hseen)
    · rw [hmodelAr]
      rw [foldlInsert_preserved _ _ _ ?_]
      · exact hst1ar
      · intro p hp hpk
        have hpr := (List.mem_filter.mp hp).2
        rw [hpk] at hpr
        simp only [decide_eq_true_eq] at hpr
        exact hpr hseen

/-- C3 witness: a three-metric scenario — `keep` stays active, `gone` is
archived with its definition, and `back` is restored from the archive
intact. -/
theorem pollCounter_archive_invariants_witness :
    lookupA (pollCounterModel false [] []
        [⟨"keep", "rate", "", "", "", true⟩, ⟨"back", "rate", "", "", "", true⟩]
        ⟨[("keep", ⟨"keep", "K", "float", true⟩), ("gone", ⟨"gone", "G", "float", true⟩)],
         [], [("back", ⟨"back", "B", "float", true⟩)], []⟩).propMetrics "gone" = none ∧
    lookupA (pollCounterModel false [] []
        [⟨"keep", "rate", "", "", "", true⟩, ⟨"back", "rate", "", "", "", true⟩]
        ⟨[("keep", ⟨"keep", "K", "float", true⟩), ("gone", ⟨"gone", "G", "float", true⟩)],
         [], [("back", ⟨"back", "B", "float", true⟩)], []⟩).archived "gone"
      = some ⟨"gone", "G", "float", true⟩ ∧
    lookupA (pollCounterModel false [] []
        [⟨"keep", "rate", "", "", "", true⟩, ⟨"back", "rate", "", "", "", true⟩]
        ⟨[("keep", ⟨"keep", "K", "float", true⟩), ("gone", ⟨"gone", "G", "float", true⟩)],
         [], [("back", ⟨"back", "B", "float", true⟩)], []⟩).propMetrics "back"
      = some ⟨"back", "B", "float", true⟩ ∧
    lookupA (pollCounterModel false [] []
        [⟨"keep", "rate", "", "", "", true⟩, ⟨"back", "rate", "", "", "", true⟩]
        ⟨[("keep", ⟨"keep", "K", "float", true⟩), ("gone", ⟨"gone", "G", "float", true⟩)],
         [], [("back", ⟨"back", "B", "float", true⟩)], []⟩).archived "back" = none := by
  have h1 := (pollCounter_archive_invariants false [] []
    [⟨"keep", "rate", "", "", "", true⟩, ⟨"back", "rate", "", "", "", true⟩]
    ⟨[("keep", ⟨"keep", "K", "float", true⟩), ("gone", ⟨"gone", "G", "float", true⟩)],
     [], [("back", ⟨"back", "B", "float", true⟩)], []⟩
    "gone" ⟨"gone", "G", "float", true⟩ (by decide)).2.2.1 (by decide) (by decide)
  have h2 := (pollCounter_archive_invariants false [] []
    [⟨"keep", "rate", "", "", "", true⟩, ⟨"back", "rate", "", "", "", true⟩]
    ⟨[("keep", ⟨"keep", "K", "float", true⟩), ("gone", ⟨"gone", "G", "float", true⟩)],
     [], [("back", ⟨"back", "B", "float", true⟩)], []⟩
    "back" ⟨"back", "B", "float", true⟩ (by decide)).2.2.2
    [⟨"keep", "rate", "", "", "", true⟩] ⟨"back", "rate", "", "", "", true⟩ []
    rfl rfl rfl (by decide) (by decide) (by decide) (by decide)
  exact ⟨h1.1, h1.2, h2.1, h2.2⟩

/-! ## Lemmas for claim C1 -/

theorem lookupA_filterMap_not_mem (f : String → Option Rat) (l : List String) (i : String)
    (h : i ∉ l) :
    lookupA (l.filterMap (fun j => (f j).map (fun v => (j, v)))) i = none := by
  induction l with
  | nil => rfl
  | cons j rest ih =>
    simp only [List.mem_cons, not_or] at h
    rw [List.filterMap_cons]
    cases hf : f j with
    | none => exact ih h.2
    | some v =>
      simp only [Option.map_some']
      rw [lookupA_cons, if_neg (fun he => h.1 he.symm)]
      exact ih h.2

theorem lookupA_filterMap_mem (f : String → Option Rat) (l : List String) (i : String)
    (h : i ∈ l) :
    lookupA (l.filterMap (fun j => (f j).map (fun v => (j, v)))) i = f i := by
  induction l with
  | nil => simp at h
  | cons j rest ih =>
    rw [List.filterMap_cons]
    cases hf : f j with
    | none =>
      show lookupA (rest.filterMap (fun j => (f j).map (fun v => (j, v)))) i = f i
      by_cases hij : i = j
      · subst hij
        by_cases hmem : i ∈ rest
        · exact ih hmem
        · rw [lookupA_filterMap_not_mem f rest i hmem, hf]
      · rcases List.mem_cons.mp h with he | hmem
        · exact absurd he hij
        · exact ih hmem
    | some v =>
      show lookupA ((j, v) :: rest.filterMap (fun j => (f j).map (fun v => (j, v)))) i = f i
      rw [lookupA_cons]
      by_cases hij : j = i
      · rw [if_pos hij, ← hij, hf]
      · rw [if_neg hij]
        rcases List.mem_cons.mp h with he | hmem
        · exact absurd he.symm hij
        · exact ih hmem

theorem writesOnlyKey_refl (key : String) (m : MatrixM) : writesOnlyKey key m m :=
  ⟨rfl, fun _ => rfl, fun _ _ _ => rfl⟩

theorem writesOnlyKey_trans {key : String} {m1 m2 m3 : MatrixM}
    (h1 : writesOnlyKey key m1 m2) (h2 : writesOnlyKey key m2 m3) :
    writesOnlyKey key m1 m3 :=
  ⟨h2.1.trans h1.1, fun k => (h2.2.1 k).trans (h1.2.1 k),
   fun k i hk => (h2.2.2 k i hk).trans (h1.2.2 k i hk)⟩

theorem updateValues_instances (m : MatrixM) (key : String) (f : String → Option Rat) :
    (updateValues m key f).instances = m.instances := by
  unfold updateValues
  cases lookupA m.metrics key <;> rfl

theorem updateValues_metrics_ne (m : MatrixM) (key k : String) (f : String → Option Rat)
    (h : k ≠ key) :
    lookupA (updateValues m key f).metrics k = lookupA m.metrics k := by
  unfold updateValues
  cases lookupA m.metrics key with
  | none => rfl
  | some mm => exact lookupA_insertA_ne _ _ _ _ h

theorem updateValues_metrics_self (m : MatrixM) (key : String) (f : String → Option Rat)
    (mm : MetricM) (h : lookupA m.metrics key = some mm) :
    lookupA (updateValues m key f).metrics key
      = some { mm with
          values := m.instances.filterMap (fun i => (f i).map (fun v => (i, v))) } := by
  unfold updateValues
  rw [h]
  exact lookupA_insertA_self _ _ _

theorem updateValues_getVal_ne (m : MatrixM) (key k i : String) (f : String → Option Rat)
    (h : k ≠ key) : getVal (updateValues m key f) k i = getVal m k i := by
  unfold getVal
  rw [updateValues_metrics_ne m key k f h]

theorem updateValues_getVal_self (m : MatrixM) (key i : String) (f : String → Option Rat)
    (mm : MetricM) (hmm : lookupA m.metrics key = some mm) (hi : i ∈ m.instances) :
    getVal (updateValues m key f) key i = f i := by
  unfold getVal
  rw [updateValues_metrics_self m key f mm hmm]
  exact lookupA_filterMap_mem f m.instances i hi

theorem updateValues_of_none (m : MatrixM) (key : String) (f : String → Option Rat)
    (h : lookupA m.metrics key = none) : updateValues m key f = m := by
  unfold updateValues
  rw [h]

theorem updateValues_mfields (m : MatrixM) (key k : String) (f : String → Option Rat) :
    mfields (updateValues m key f) k = mfields m k := by
  unfold mfields
  by_cases h : k = key
  · subst h
    cases hm : lookupA m.metrics k with
    | none => rw [updateValues_of_none m k f hm, hm]
    | some mm =>
      rw [updateValues_metrics_self m k f mm hm]
      rfl
  · rw [updateValues_metrics_ne m key k f h]

theorem updateValues_writesOnlyKey (m : MatrixM) (key : String) (f : String → Option Rat) :
    writesOnlyKey key m (updateValues m key f) :=
  ⟨updateValues_instances m key f, fun k => updateValues_mfields m key k f,
   fun k i hk => updateValues_getVal_ne m key k i f hk⟩

theorem setMeta_instances (m : MatrixM) (key p c : String) :
    (setMeta m key p c).instances = m.instances := by
  unfold setMeta
  cases lookupA m.metrics key <;> rfl

theorem setMeta_metrics_ne (m : MatrixM) (key k p c : String) (h : k ≠ key) :
    lookupA (setMeta m key p c).metrics k = lookupA m.metrics k := by
  unfold setMeta
  cases lookupA m.metrics key with
  | none => rfl
  | some mm => exact lookupA_insertA_ne _ _ _ _ h

theorem setMeta_of_none (m : MatrixM) (key p c : String)
    (h : lookupA m.metrics key = none) : setMeta m key p c = m := by
  unfold setMeta
  rw [h]

theorem setMeta_metrics_self (m : MatrixM) (key p c : String) (mm : MetricM)
    (h : lookupA m.metrics key = some mm) :
    lookupA (setMeta m key p c).metrics key
      = some { mm with property := p, comment := c } := by
  unfold setMeta
  rw [h]
  exact lookupA_insertA_self _ _ _

theorem setMeta_getVal (m : MatrixM) (key k p c i : String) :
    getVal (setMeta m key p c) k i = getVal m k i := by
  unfold getVal
  by_cases h : k = key
  · subst h
    cases hm : lookupA m.metrics k with
    | none => rw [setMeta_of_none m k p c hm, hm]
    | some mm => rw [setMeta_metrics_self m k p c mm hm]
  · rw [setMeta_metrics_ne m key k p c h]

theorem setMeta_mfields (m : MatrixM) (key k p c : String) :
    mfields (setMeta m key p c) k = mfields m k := by
  unfold mfields
  by_cases h : k = key
  · subst h
    cases hm : lookupA m.metrics k with
    | none => rw [setMeta_of_none m k p c hm, hm]
    | some mm =>
      rw [setMeta_metrics_self m k p c mm hm]
      rfl
  · rw [setMeta_metrics_ne m key k p c h]

theorem setMeta_writesOnlyKey (m : MatrixM) (key p c : String) :
    writesOnlyKey key m (setMeta m key p c) :=
  ⟨setMeta_instances m key p c, fun k => setMeta_mfields m key k p c,
   fun k i _ => setMeta_getVal m key k p c i⟩

theorem setMeta_getVal_all (m : MatrixM) (key p c : String) :
    ∀ k i, getVal (setMeta m key p c) k i = getVal m k i :=
  fun k i => setMeta_getVal m key k p c i

theorem Delta_writesOnlyKey (key : String) (prev m : MatrixM) :
    writesOnlyKey key m (Delta key prev m).1 :=
  updateValues_writesOnlyKey m key (deltaFn m prev key)

theorem Divide_writesOnlyKey (key den : String) (m : MatrixM) :
    writesOnlyKey key m (Divide key den m).1 :=
  updateValues_writesOnlyKey m key (divideFn m key den)

theorem DivideWithThreshold_writesOnlyKey (key den : String) (minOps : Rat)
    (cached prev : MatrixM) (tsKey : String) (m : MatrixM) :
    writesOnlyKey key m (DivideWithThreshold key den minOps cached prev tsKey m).1 :=
  updateValues_writesOnlyKey m key (divideWithThresholdFn m key den minOps)

theorem MultiplyByScalar_writesOnlyKey (key : String) (s : Rat) (m : MatrixM) :
    writesOnlyKey key m (MultiplyByScalar key s m).1 :=
  updateValues_writesOnlyKey m key (fun i => (getVal m key i).map (fun v => v * s))

theorem Delta_getVal_self (key : String) (prev m : MatrixM) (i : String) (mm : MetricM)
    (hmm : lookupA m.metrics key = some mm) (hi : i ∈ m.instances) :
    getVal (Delta key prev m).1 key i = deltaFn m prev key i :=
  updateValues_getVal_self m key i (deltaFn m prev key) mm hmm hi

theorem Divide_getVal_self (key den : String) (m : MatrixM) (i : String) (mm : MetricM)
    (hmm : lookupA m.metrics key = some mm) (hi : i ∈ m.instances) :
    getVal (Divide key den m).1 key i = divideFn m key den i :=
  updateValues_getVal_self m key i (divideFn m key den) mm hmm hi

theorem Divide_skips_mem (key den : String) (m : MatrixM) (i : String) (mm : MetricM)
    (hmm : lookupA m.metrics key = some mm) (hi : i ∈ m.instances)
    (hf : divideFn m key den i = none) : i ∈ (Divide key den m).2 := by
  show i ∈ skipsOf m key (divideFn m key den)
  unfold skipsOf
  rw [hmm]
  refine List.mem_filter.mpr ⟨hi, ?_⟩
  rw [hf]
  rfl

/-- `counterLookup` only reads the metric's `isArray` flag. -/
theorem counterLookup_congr (ci : List (String × Counter)) (mm mm2 : MetricM)
    (key : String) (h : mm2.isArray = mm.isArray) :
    counterLookup ci mm2 key = counterLookup ci mm key := by
  unfold counterLookup
  rw [h]

theorem ppStep1_frame (ci : List (String × Counter)) (prev cached : MatrixM)
    (minOps : Rat) (acc : MatrixM × List (String × String)) (key : String) :
    writesOnlyKey key acc.1 (ppStep1 ci prev cached minOps acc key).1 ∧
    ∀ p ∈ acc.2, p ∈ (ppStep1 ci prev cached minOps acc key).2 := by
  unfold ppStep1
  cases h1 : lookupA acc.1.metrics key with
  | none => exact ⟨writesOnlyKey_refl _ _, fun p hp => hp⟩
  | some mm =>
    dsimp only
    cases h2 : counterLookup ci mm key with
    | none => exact ⟨writesOnlyKey_refl _ _, fun p hp => hp⟩
    | some c =>
      dsimp only
      have w0 := setMeta_writesOnlyKey acc.1 key c.counterType c.denominator
      have w1 := writesOnlyKey_trans w0 (Delta_writesOnlyKey key prev _)
      by_cases hb1 : (c.counterType == "raw" || c.counterType == "string") = true
      · rw [if_pos hb1]
        exact ⟨w0, fun p hp => hp⟩
      · rw [if_neg hb1]
        by_cases hb2 : (c.counterType == "delta") = true
        · rw [if_pos hb2]
          exact ⟨w1, fun p hp => List.mem_append_left _ hp⟩
        · rw [if_neg hb2]
          by_cases hb3 : (c.counterType == "rate") = true
          · rw [if_pos hb3]
            exact ⟨w1, fun p hp => List.mem_append_left _ hp⟩
          · rw [if_neg hb3]
            cases h4 : lookupA (Delta key prev
                (setMeta acc.1 key c.counterType c.denominator)).1.metrics
                c.denominator with
            | none => exact ⟨w1, fun p hp => List.mem_append_left _ hp⟩
            | some md =>
              dsimp only
              by_cases hb5 : (c.counterType == "average" || c.counterType == "percent") = true
              · rw [if_pos hb5]
                by_cases hb6 : mm.name.endsWith "latency" = true
                · rw [if_pos hb6]
                  have w2 := writesOnlyKey_trans w1
                    (DivideWithThreshold_writesOnlyKey key c.denominator minOps cached
                      prev "timestamp" _)
                  by_cases hb7 : (c.counterType == "average") = true
                  · rw [if_pos hb7]
                    exact ⟨w2, fun p hp =>
                      List.mem_append_left _ (List.mem_append_left _ hp)⟩
                  · rw [if_neg hb7]
                    exact ⟨writesOnlyKey_trans w2
                        (MultiplyByScalar_writesOnlyKey key 100 _),
                      fun p hp => List.mem_append_left _
                        (List.mem_append_left _ (List.mem_append_left _ hp))⟩
                · rw [if_neg hb6]
                  have w2 := writesOnlyKey_trans w1
                    (Divide_writesOnlyKey key c.denominator _)
                  by_cases hb7 : (c.counterType == "average") = true
                  · rw [if_pos hb7]
                    exact ⟨w2, fun p hp =>
                      List.mem_append_left _ (List.mem_append_left _ hp)⟩
                  · rw [if_neg hb7]
                    exact ⟨writesOnlyKey_trans w2
                        (MultiplyByScalar_writesOnlyKey key 100 _),
                      fun p hp => List.mem_append_left _
                        (List.mem_append_left _ (List.mem_append_left _ hp))⟩
              · rw [if_neg hb5]
                exact ⟨w1, fun p hp => List.mem_append_left _ hp⟩

theorem ppStep2_frame (ci : List (String × Counter))
    (acc : MatrixM × List (String × String)) (key : String) :
    writesOnlyKey key acc.1 (ppStep2 ci acc key).1 ∧
    ∀ p ∈ acc.2, p ∈ (ppStep2 ci acc key).2 := by
  unfold ppStep2
  cases h1 : lookupA acc.1.metrics key with
  | none => exact ⟨writesOnlyKey_refl _ _, fun p hp => hp⟩
  | some mm =>
    dsimp only
    cases h2 : counterLookup ci mm key with
    | none => exact ⟨writesOnlyKey_refl _ _, fun p hp => hp⟩
    | some c =>
      dsimp only
      by_cases hb : (c.counterType == "rate") = true
      · rw [if_pos hb]
        exact ⟨Divide_writesOnlyKey _ _ _, fun p hp => List.mem_append_left _ hp⟩
      · rw [if_neg hb]
        exact ⟨writesOnlyKey_refl _ _, fun p hp => hp⟩

theorem ppStep1_rate_eq (ci : List (String × Counter)) (prev cached : MatrixM)
    (minOps : Rat) (acc : MatrixM × List (String × String)) (key : String)
    (mm : MetricM) (c : Counter)
    (h1 : lookupA acc.1.metrics key = some mm)
    (h2 : counterLookup ci mm key = some c) (h3 : c.counterType = "rate") :
    ppStep1 ci prev cached minOps acc key
      = ((Delta key prev (setMeta acc.1 key c.counterType c.denominator)).1,
         acc.2 ++ (Delta key prev (setMeta acc.1 key c.counterType c.denominator)).2.map
           (fun i => (key, i))) := by
  unfold ppStep1
  rw [h1]
  dsimp only
  rw [h2]
  dsimp only
  rw [h3]
  rw [if_neg (by decide), if_neg (by decide), if_pos (by decide)]

theorem ppStep2_rate_eq (ci : List (String × Counter))
    (acc : MatrixM × List (String × String)) (key : String) (mm : MetricM) (c : Counter)
    (h1 : lookupA acc.1.metrics key = some mm)
    (h2 : counterLookup ci mm key = some c) (h3 : c.counterType = "rate") :
    ppStep2 ci acc key
      = ((Divide key "timestamp" acc.1).1,
         acc.2 ++ (Divide key "timestamp" acc.1).2.map (fun i => (key, i))) := by
  unfold ppStep2
  rw [h1]
  dsimp only
  rw [h2]
  dsimp only
  rw [h3]
  rw [if_pos (by decide)]

theorem ppFold1_writes (ci : List (String × Counter)) (prev cached : MatrixM)
    (minOps : Rat) (L : List String) :
    ∀ acc : MatrixM × List (String × String),
      ((L.foldl (ppStep1 ci prev cached minOps) acc).1.instances = acc.1.instances) ∧
      (∀ k, mfields (L.foldl (ppStep1 ci prev cached minOps) acc).1 k = mfields acc.1 k) ∧
      (∀ t j, (∀ k2 ∈ L, k2 ≠ t) →
        getVal (L.foldl (ppStep1 ci prev cached minOps) acc).1 t j = getVal acc.1 t j) ∧
      (∀ p ∈ acc.2, p ∈ (L.foldl (ppStep1 ci prev cached minOps) acc).2) := by
  induction L with
  | nil => exact fun acc => ⟨rfl, fun _ => rfl, fun _ _ _ => rfl, fun _ hp => hp⟩
  | cons k0 rest ih =>
    intro acc
    rw [List.foldl_cons]
    obtain ⟨hstep, hsk⟩ := ppStep1_frame ci prev cached minOps acc k0
    obtain ⟨i1, i2, i3, i4⟩ := ih (ppStep1 ci prev cached minOps acc k0)
    refine ⟨i1.trans hstep.1, fun k => (i2 k).trans (hstep.2.1 k), ?_, ?_⟩
    · intro t j ht
      rw [i3 t j (fun k2 hk2 => ht k2 (List.mem_cons_of_mem _ hk2))]
      exact hstep.2.2 t j (Ne.symm (ht k0 (List.mem_cons_self _ _)))
    · intro p hp
      exact i4 p (hsk p hp)

theorem ppFold2_writes (ci : List (String × Counter)) (L : List String) :
    ∀ acc : MatrixM × List (String × String),
      ((L.foldl (ppStep2 ci) acc).1.instances = acc.1.instances) ∧
      (∀ k, mfields (L.foldl (ppStep2 ci) acc).1 k = mfields acc.1 k) ∧
      (∀ t j, (∀ k2 ∈ L, k2 ≠ t) →
        getVal (L.foldl (ppStep2 ci) acc).1 t j = getVal acc.1 t j) ∧
      (∀ p ∈ acc.2, p ∈ (L.foldl (ppStep2 ci) acc).2) := by
  induction L with
  | nil => exact fun acc => ⟨rfl, fun _ => rfl, fun _ _ _ => rfl, fun _ hp => hp⟩
  | cons k0 rest ih =>
    intro acc
    rw [List.foldl_cons]
    obtain ⟨hstep, hsk⟩ := ppStep2_frame ci acc k0
    obtain ⟨i1, i2, i3, i4⟩ := ih (ppStep2 ci acc k0)
    refine ⟨i1.trans hstep.1, fun k => (i2 k).trans (hstep.2.1 k), ?_, ?_⟩
    · intro t j ht
      rw [i3 t j (fun k2 hk2 => ht k2 (List.mem_cons_of_mem _ hk2))]
      exact hstep.2.2 t j (Ne.symm (ht k0 (List.mem_cons_self _ _)))
    · intro p hp
      exact i4 p (hsk p hp)

theorem rateOk_value (cur prev : MatrixM) (key i : String) (cv pv t1 t0 : Rat)
    (hc : getVal cur key i = some cv) (hp : getVal prev key i = some pv)
    (hcv : pv ≤ cv) (ht1 : getVal cur "timestamp" i = some t1)
    (ht0 : getVal prev "timestamp" i = some t0) (htlt : t0 < t1) :
    rateResult cur prev key i = some ((cv - pv) / (t1 - t0)) := by
  unfold rateResult deltaFn
  rw [hc, hp, ht1, ht0]
  dsimp only
  rw [if_neg (not_lt.mpr (by linarith)), if_neg (not_lt.mpr (by linarith))]
  dsimp only
  rw [if_pos (by linarith)]

theorem rateFail_none (cur prev : MatrixM) (key i : String)
    (h : rateOk cur prev key i = false) :
    rateResult cur prev key i = none := by
  unfold rateOk at h
  unfold rateResult deltaFn
  cases hc : getVal cur key i with
  | none => rfl
  | some cv =>
    cases hp : getVal prev key i with
    | none => rfl
    | some pv =>
      dsimp only
      by_cases hneg : cv - pv < 0
      · rw [if_pos hneg]
      · rw [if_neg hneg]
        cases ht1 : getVal cur "timestamp" i with
        | none => rfl
        | some t1 =>
          cases ht0 : getVal prev "timestamp" i with
          | none => rfl
          | some t0 =>
            dsimp only
            by_cases htneg : t1 - t0 < 0
            · rw [if_pos htneg]
            · rw [if_neg htneg]
              dsimp only
              by_cases htlt : t0 < t1
              · exfalso
                have hple : pv ≤ cv := by
                  have := not_lt.mp hneg
                  linarith
                rw [hc, hp, ht1, ht0] at h
                simp [hple, htlt] at h
              · rw [if_neg (fun h0 => htlt (by linarith))]

theorem eq_of_mem_nodup_keysA {α : Type} {l : List (String × α)} {p q : String × α}
    (hnd : (keysA l).Nodup) (hp : p ∈ l) (hq : q ∈ l) (h : p.1 = q.1) : p = q := by
  obtain ⟨pa, pb⟩ := p
  obtain ⟨qa, qb⟩ := q
  have h' : pa = qa := h
  have h1 : lookupA l pa = some pb := lookupA_eq_some_of_mem_nodup hnd hp
  have h2 : lookupA l qa = some qb := lookupA_eq_some_of_mem_nodup hnd hq
  rw [h'] at h1
  have h4 : some pb = some qb := h1.symm.trans h2
  injection h4 with h5
  rw [h', h5]

/-- The value and skip behaviour of the two post-processing passes at a
rate metric, for any decomposition of the ordered key list around the
metric's (unique) position. -/
theorem ppChain_rate (ci : List (String × Counter)) (minOps : Rat)
    (prev cur : MatrixM) (key i : String) (mm tm : MetricM) (c : Counter)
    (K1 K2 : List String)
    (hmm : lookupA cur.metrics key = some mm)
    (hcl : counterLookup ci mm key = some c)
    (hrate : c.counterType = "rate")
    (htm : lookupA cur.metrics "timestamp" = some tm)
    (hi : i ∈ cur.instances)
    (hkts : key ≠ "timestamp")
    (hK1ne : ∀ k2 ∈ K1, k2 ≠ key) (hK1ts : ∀ k2 ∈ K1, k2 ≠ "timestamp")
    (hK2ne : ∀ k2 ∈ K2, k2 ≠ key) (hK2ts : ∀ k2 ∈ K2, k2 ≠ "timestamp") :
    getVal ((K1 ++ key :: K2).foldl (ppStep2 ci)
        ((K1 ++ key :: K2).foldl (ppStep1 ci prev cur minOps)
          ((Delta "timestamp" prev cur).1, []))).1 key i
      = rateResult cur prev key i ∧
    (rateResult cur prev key i = none →
      (key, i) ∈ ((K1 ++ key :: K2).foldl (ppStep2 ci)
        ((K1 ++ key :: K2).foldl (ppStep1 ci prev cur minOps)
          ((Delta "timestamp" prev cur).1, []))).2) := by
  rw [List.foldl_append, List.foldl_cons, List.foldl_append, List.foldl_cons]
  set B := K1.foldl (ppStep1 ci prev cur minOps)
    ((Delta "timestamp" prev cur).1, ([] : List (String × String))) with hBd
  set C := ppStep1 ci prev cur minOps B key with hCd
  set A1 := K2.foldl (ppStep1 ci prev cur minOps) C with hA1d
  set E := K1.foldl (ppStep2 ci) A1 with hEd
  set F := ppStep2 ci E key with hFd
  -- the timestamp delta computed up front
  have hm1w := Delta_writesOnlyKey "timestamp" prev cur
  have hm1key : getVal (Delta "timestamp" prev cur).1 key i = getVal cur key i :=
    hm1w.2.2 key i hkts
  have hm1ts : getVal (Delta "timestamp" prev cur).1 "timestamp" i
      = deltaFn cur prev "timestamp" i :=
    Delta_getVal_self "timestamp" prev cur i tm htm hi
  -- first pass over the prefix
  obtain ⟨hBinst, hBmf, hBval, hBsk⟩ := ppFold1_writes ci prev cur minOps K1
    ((Delta "timestamp" prev cur).1, [])
  have hBkey : getVal B.1 key i = getVal cur key i :=
    (hBval key i hK1ne).trans hm1key
  have hBts : getVal B.1 "timestamp" i = deltaFn cur prev "timestamp" i :=
    (hBval "timestamp" i hK1ts).trans hm1ts
  have hBinst2 : B.1.instances = cur.instances := hBinst.trans hm1w.1
  have hBmf2 : ∀ k, mfields B.1 k = mfields cur k :=
    fun k => (hBmf k).trans (hm1w.2.1 k)
  -- the metric's identity fields survive, so the counter still resolves
  have hBmfkey : mfields B.1 key = some (mm.name, mm.isArray, mm.buckets) := by
    rw [hBmf2 key]
    unfold mfields
    rw [hmm]
    rfl
  obtain ⟨mm1, hmm1, hmm1a⟩ :
      ∃ mm1, lookupA B.1.metrics key = some mm1 ∧ mm1.isArray = mm.isArray := by
    unfold mfields at hBmfkey
    cases hl : lookupA B.1.metrics key with
    | none => rw [hl] at hBmfkey; cases hBmfkey
    | some x =>
      rw [hl, Option.map_some'] at hBmfkey
      injection hBmfkey with h2
      exact ⟨x, rfl, congrArg (fun q => q.2.1) h2⟩
  have hcl1 : counterLookup ci mm1 key = some c :=
    (counterLookup_congr ci mm mm1 key hmm1a).trans hcl
  -- the first pass at the rate key: delta only, division deferred
  have hCeq := ppStep1_rate_eq ci prev cur minOps B key mm1 c hmm1 hcl1 hrate
  have hCw : writesOnlyKey key B.1 C.1 := (ppStep1_frame ci prev cur minOps B key).1
  have hCinst : C.1.instances = cur.instances := hCw.1.trans hBinst2
  have hCmf : ∀ k, mfields C.1 k = mfields cur k :=
    fun k => (hCw.2.1 k).trans (hBmf2 k)
  have hCts : getVal C.1 "timestamp" i = deltaFn cur prev "timestamp" i :=
    (hCw.2.2 "timestamp" i (Ne.symm hkts)).trans hBts
  have hCkey : getVal C.1 key i = deltaFn cur prev key i := by
    rw [hCd, hCeq]
    dsimp only
    rw [Delta_getVal_self key prev (setMeta B.1 key c.counterType c.denominator) i
      ({ mm1 with property := c.counterType, comment := c.denominator })
      (setMeta_metrics_self B.1 key c.counterType c.denominator mm1 hmm1)
      (by rw [setMeta_instances, hBinst2]; exact hi)]
    unfold deltaFn
    rw [setMeta_getVal_all, hBkey]
  -- first pass over the suffix
  obtain ⟨hA1i, hA1m, hA1v, hA1s⟩ := ppFold1_writes ci prev cur minOps K2 C
  have hA1key : getVal A1.1 key i = deltaFn cur prev key i :=
    (hA1v key i hK2ne).trans hCkey
  have hA1ts : getVal A1.1 "timestamp" i = deltaFn cur prev "timestamp" i :=
    (hA1v "timestamp" i hK2ts).trans hCts
  have hA1inst : A1.1.instances = cur.instances := hA1i.trans hCinst
  have hA1mf : ∀ k, mfields A1.1 k = mfields cur k :=
    fun k => (hA1m k).trans (hCmf k)
  -- second pass over the prefix
  obtain ⟨hEi, hEm, hEv, hEs⟩ := ppFold2_writes ci K1 A1
  have hEkey : getVal E.1 key i = deltaFn cur prev key i :=
    (hEv key i hK1ne).trans hA1key
  have hEts : getVal E.1 "timestamp" i = deltaFn cur prev "timestamp" i :=
    (hEv "timestamp" i hK1ts).trans hA1ts
  have hEinst2 : E.1.instances = cur.instances := hEi.trans hA1inst
  have hEmf2 : ∀ k, mfields E.1 k = mfields cur k :=
    fun k => (hEm k).trans (hA1mf k)
  have hEmfkey : mfields E.1 key = some (mm.name, mm.isArray, mm.buckets) := by
    rw [hEmf2 key]
    unfold mfields
    rw [hmm]
    rfl
  obtain ⟨mm2, hmm2, hmm2a⟩ :
      ∃ mm2, lookupA E.1.metrics key = some mm2 ∧ mm2.isArray = mm.isArray := by
    unfold mfields at hEmfkey
    cases hl : lookupA E.1.metrics key with
    | none => rw [hl] at hEmfkey; cases hEmfkey
    | some x =>
      rw [hl, Option.map_some'] at hEmfkey
      injection hEmfkey with h2
      exact ⟨x, rfl, congrArg (fun q => q.2.1) h2⟩
  have hcl2 : counterLookup ci mm2 key = some c :=
    (counterLookup_congr ci mm mm2 key hmm2a).trans hcl
  -- second pass at the rate key: divide the delta by the timestamp delta
  have hFeq := ppStep2_rate_eq ci E key mm2 c hmm2 hcl2 hrate
  have hFkey : getVal F.1 key i = rateResult cur prev key i := by
    rw [hFd, hFeq]
    dsimp only
    rw [Divide_getVal_self key "timestamp" E.1 i mm2 hmm2 (by rw [hEinst2]; exact hi)]
    unfold divideFn rateResult
    rw [hEkey, hEts]
  have hFskip : rateResult cur prev key i = none → (key, i) ∈ F.2 := by
    intro hnone
    rw [hFd, hFeq]
    dsimp only
    refine List.mem_append_right _ ?_
    refine List.mem_map.mpr ⟨i, ?_, rfl⟩
    refine Divide_skips_mem key "timestamp" E.1 i mm2 hmm2
      (by rw [hEinst2]; exact hi) ?_
    unfold divideFn
    rw [hEkey, hEts]
    cases hd1 : deltaFn cur prev key i with
    | none => rfl
    | some n =>
      cases hd2 : deltaFn cur prev "timestamp" i with
      | none => rfl
      | some d =>
        unfold rateResult at hnone
        rw [hd1, hd2] at hnone
        dsimp only at hnone ⊢
        exact hnone
  -- second pass over the suffix
  obtain ⟨hFi, hFm, hFv, hFs⟩ := ppFold2_writes ci K2 F
  refine ⟨?_, ?_⟩
  · rw [hFv key i hK2ne]
    exact hFkey
  · intro hnone
    exact hFs (key, i) (hFskip hnone)

/-- **C1**: on every cycle after the first (`isCacheEmpty` is clear),
`pollData` emits the post-processed matrix; for a metric whose resolved
counter type is `rate`, its per-instance cooked value is the raw delta
divided by the timestamp delta (the timestamp delta being computed up
front, the division deferred to the second pass), and whenever either
delta is invalid or the timestamp delta is not positive the value is
invalidated and the (metric, instance) pair is counted among the skips. -/
theorem pollData_rate_computation
    (ci : List (String × Counter)) (minOps : Rat) (prev cur : MatrixM)
    (key i : String) (mm tm : MetricM) (c : Counter)
    (hmm : lookupA cur.metrics key = some mm)
    (hname : mm.name ≠ "timestamp")
    (hbuck : mm.buckets = none)
    (hcl : counterLookup ci mm key = some c)
    (hrate : c.counterType = "rate")
    (hnd : (keysA cur.metrics).Nodup)
    (htm : lookupA cur.metrics "timestamp" = some tm)
    (htmname : tm.name = "timestamp")
    (hi : i ∈ cur.instances) :
    pollDataFinish ci minOps ⟨false, prev⟩ cur
      = (⟨false, cur⟩,
         some ((postProcess ci minOps prev cur).1,
           (postProcess ci minOps prev cur).2.length)) ∧
    (∀ cv pv t1 t0 : Rat,
      getVal cur key i = some cv → getVal prev key i = some pv → pv ≤ cv →
      getVal cur "timestamp" i = some t1 → getVal prev "timestamp" i = some t0 →
      t0 < t1 →
      getVal (postProcess ci minOps prev cur).1 key i
        = some ((cv - pv) / (t1 - t0))) ∧
    (rateOk cur prev key i = false →
      getVal (postProcess ci minOps prev cur).1 key i = none ∧
      (key, i) ∈ (postProcess ci minOps prev cur).2) := by
  have hkts : key ≠ "timestamp" := by
    intro he
    rw [he, htm] at hmm
    injection hmm with h2
    exact hname (h2 ▸ htmname)
  have hsubEl : ∀ r, r ∈ ppEligible ci cur → r ∈ cur.metrics := by
    intro r hr
    unfold ppEligible at hr
    exact List.mem_of_mem_filter hr
  have hel : (key, mm) ∈ ppEligible ci cur := by
    unfold ppEligible
    refine List.mem_filter.mpr ⟨mem_of_lookupA_eq_some hmm, ?_⟩
    simp [hname, hbuck, hcl]
  have hKmem : key ∈ orderedKeys ci cur := by
    unfold orderedKeys
    cases hden : ppDenomOf ci (key, mm) == "" with
    | true =>
      refine List.mem_append_left _ ?_
      exact List.mem_map_of_mem Prod.fst (List.mem_filter.mpr ⟨hel, hden⟩)
    | false =>
      refine List.mem_append_right _ ?_
      refine List.mem_map_of_mem Prod.fst (List.mem_filter.mpr ⟨hel, ?_⟩)
      simp [bne, hden]
  have hKex : ∀ k2 ∈ orderedKeys ci cur, ∃ p, p ∈ ppEligible ci cur ∧ p.1 = k2 := by
    intro k2 hk2
    unfold orderedKeys at hk2
    rcases List.mem_append.mp hk2 with h | h
    · obtain ⟨p, hp, hpk⟩ := List.mem_map.mp h
      exact ⟨p, List.mem_of_mem_filter hp, hpk⟩
    · obtain ⟨p, hp, hpk⟩ := List.mem_map.mp h
      exact ⟨p, List.mem_of_mem_filter hp, hpk⟩
  have hKts : ∀ k2 ∈ orderedKeys ci cur, k2 ≠ "timestamp" := by
    intro k2 hk2 he
    obtain ⟨p, hp, hpk⟩ := hKex k2 hk2
    have hpm : p ∈ cur.metrics := hsubEl p hp
    have hpred := (List.mem_filter.mp (by unfold ppEligible at hp; exact hp :
      p ∈ cur.metrics.filter (fun q =>
        q.2.name != "timestamp" && q.2.buckets.isNone
          && (counterLookup ci q.2 q.1).isSome))).2
    simp only [Bool.and_eq_true, bne_iff_ne] at hpred
    have hlp : lookupA cur.metrics p.1 = some p.2 :=
      lookupA_eq_some_of_mem_nodup hnd hpm
    rw [hpk, he, htm] at hlp
    injection hlp with h2
    exact hpred.1.1 (h2 ▸ htmname)
  have hKnd : (orderedKeys ci cur).Nodup := by
    unfold orderedKeys
    have hsub0 : List.Sublist (ppEligible ci cur) cur.metrics := by
      unfold ppEligible
      exact List.filter_sublist _
    refine List.Nodup.append ?_ ?_ ?_
    · exact List.Nodup.sublist
        (List.Sublist.map _ ((List.filter_sublist _).trans hsub0)) hnd
    · exact List.Nodup.sublist
        (List.Sublist.map _ ((List.filter_sublist _).trans hsub0)) hnd
    · intro k hk1 hk2
      obtain ⟨p, hp, hpk⟩ := List.mem_map.mp hk1
      obtain ⟨q, hq, hqk⟩ := List.mem_map.mp hk2
      have hpq : p = q := eq_of_mem_nodup_keysA hnd
        (hsubEl p (List.mem_of_mem_filter hp))
        (hsubEl q (List.mem_of_mem_filter hq)) (by rw [hpk, hqk])
      have hden1 := (List.mem_filter.mp hp).2
      have hden2 := (List.mem_filter.mp hq).2
      have hb1 : (ppDenomOf ci q == "") = true := by
        rw [hpq] at hden1
        exact hden1
      have hb2 : (ppDenomOf ci q != "") = true := hden2
      simp [bne, hb1] at hb2
  obtain ⟨K1, K2, hKsplit, hK1notin⟩ := mem_first_split hKmem
  have hndSplit : (K1 ++ key :: K2).Nodup := hKsplit ▸ hKnd
  have hK2notin : key ∉ K2 := by
    have h3 : (key :: K2).Nodup :=
      List.Nodup.sublist (List.sublist_append_right _ _) hndSplit
    exact (List.nodup_cons.mp h3).1
  have hK1ne : ∀ k2 ∈ K1, k2 ≠ key := fun k2 hk2 he => hK1notin (he ▸ hk2)
  have hK2ne : ∀ k2 ∈ K2, k2 ≠ key := fun k2 hk2 he => hK2notin (he ▸ hk2)
  have hK1ts : ∀ k2 ∈ K1, k2 ≠ "timestamp" := fun k2 hk2 =>
    hKts k2 (by rw [hKsplit]; exact List.mem_append_left _ hk2)
  have hK2ts : ∀ k2 ∈ K2, k2 ≠ "timestamp" := fun k2 hk2 =>
    hKts k2 (by rw [hKsplit]; exact List.mem_append_right _ (List.mem_cons_of_mem _ hk2))
  obtain ⟨hval, hskip⟩ := ppChain_rate ci minOps prev cur key i mm tm c K1 K2
    hmm hcl hrate htm hi hkts hK1ne hK1ts hK2ne hK2ts
  have hpp : postProcess ci minOps prev cur
      = (K1 ++ key :: K2).foldl (ppStep2 ci)
          ((K1 ++ key :: K2).foldl (ppStep1 ci prev cur minOps)
            ((Delta "timestamp" prev cur).1, [])) := by
    rw [← hKsplit]
    rfl
  refine ⟨rfl, ?_, ?_⟩
  · intro cv pv t1 t0 h1 h2 h3 h4 h5 h6
    rw [hpp, hval]
    exact rateOk_value cur prev key i cv pv t1 t0 h1 h2 h3 h4 h5 h6
  · intro hfail
    have hres : rateResult cur prev key i = none := rateFail_none cur prev key i hfail
    refine ⟨?_, ?_⟩
    · rw [hpp, hval]
      exact hres
    · rw [hpp]
      exact hskip hres

/-- Witness for C1: raw 100 → 400 over timestamps 10 → 70 yields the rate
(400 − 100) / (70 − 10) = 5. -/
theorem pollData_rate_computation_witness :
    getVal (postProcess c1ci 1 c1prev c1cur).1 "total_ops" "i1" = some 5 := by
  have h := pollData_rate_computation c1ci 1 c1prev c1cur "total_ops" "i1"
    c1opsCur c1tsCur c1Counter rfl (by decide) rfl rfl rfl (by decide) rfl rfl
    (by decide)
  have h2 := h.2.1 400 100 70 10 rfl rfl (by norm_num) rfl rfl (by norm_num)
  rw [h2]
  norm_num

end Harvest

